import Mathlib

/-!
Verification development for the AIS (vessel position) annotation pipeline
`Section1_Yiannis_Modularized.py`.

Modelling conventions:
* A pandas dataframe row is an association list from column names to cell
  values (`Row`); a dataframe is a `List Row`.  Column assignment
  (`df[c] = v`) overwrites an existing column in place or appends a new
  column at the end, exactly as pandas does; `drop(columns=[c])` removes it.
* Coordinates and speeds are rationals.  Euclidean distances are
  represented throughout by their squares (`distSq`), which keeps every
  definition inside ℚ; since `Real.sqrt` is strictly monotone on
  nonnegatives, comparing a distance with a threshold `t ≥ 0` is the same
  as comparing the squared distance with `t ^ 2`, and the nearest
  (minimal-distance) port is the port of minimal squared distance.
* The scipy `cKDTree` spatial index is modelled by an executable k-d tree
  over the port list (`KDTree.build`), with the standard pruned
  nearest-neighbour search (`nnSearch`); its agreement with the brute-force
  minimum is proved, not assumed.
-/

set_option autoImplicit false

namespace AIS

/-- A dataframe cell value: number, string, null (NaN/None), boolean, or a
point geometry (as produced by `geopandas.points_from_xy`). -/
inductive Val where
  | num (q : ℚ)
  | str (s : String)
  | null
  | boolean (b : Bool)
  | point (x y : ℚ)
deriving DecidableEq, Repr

/-- A dataframe row: ordered association list of column name / cell value. -/
abbrev Row := List (String × Val)

/-- Value of column `c` in row `r` (first occurrence), `none` if absent. -/
def getCol : Row → String → Option Val
  | [], _ => none
  | kv :: rest, c => if kv.1 = c then some kv.2 else getCol rest c

/-- Column assignment `r[c] = v`: overwrite the (first occurrence of the)
column if present, else append the new column at the end — the pandas
semantics of `df[c] = v`. -/
def setCol : Row → String → Val → Row
  | [], c, v => [(c, v)]
  | kv :: rest, c, v => if kv.1 = c then (c, v) :: rest else kv :: setCol rest c v

/-- `drop(columns=[c])`: remove column `c` from the row. -/
def dropCol (r : Row) (c : String) : Row := r.filter (fun kv => kv.1 ≠ c)

/-- Numeric value of column `c`, defaulting to `0` when the column is
missing or non-numeric (the source assumes the column is present and
numeric; a missing column is a fatal schema error there). -/
def getQ (r : Row) (c : String) : ℚ :=
  match getCol r c with
  | some (Val.num q) => q
  | _ => 0

@[simp] theorem getCol_nil (c : String) : getCol [] c = none := rfl

theorem getCol_cons (kv : String × Val) (rest : Row) (c : String) :
    getCol (kv :: rest) c = if kv.1 = c then some kv.2 else getCol rest c := rfl

@[simp] theorem setCol_nil (c : String) (v : Val) : setCol [] c v = [(c, v)] := rfl

theorem setCol_cons (kv : String × Val) (rest : Row) (c : String) (v : Val) :
    setCol (kv :: rest) c v =
      if kv.1 = c then (c, v) :: rest else kv :: setCol rest c v := rfl

@[simp] theorem getCol_setCol_same (r : Row) (c : String) (v : Val) :
    getCol (setCol r c v) c = some v := by
  induction r with
  | nil => simp [setCol, getCol]
  | cons kv rest ih =>
      by_cases h : kv.1 = c
      · simp [setCol, getCol, h]
      · simp [setCol, getCol, h, ih]

@[simp] theorem getCol_setCol_ne (r : Row) (c c' : String) (v : Val) (h : c ≠ c') :
    getCol (setCol r c v) c' = getCol r c' := by
  induction r with
  | nil => simp [setCol, getCol, h]
  | cons kv rest ih =>
      by_cases hk : kv.1 = c
      · have hcc : ¬ c = c' := h
        simp [setCol, getCol, hk, hcc]
      · by_cases hk' : kv.1 = c'
        · simp only [setCol, if_neg hk, getCol, if_pos hk']
        · simp only [setCol, if_neg hk, getCol, if_neg hk', ih]

@[simp] theorem getCol_dropCol_ne (r : Row) (c c' : String) (h : c ≠ c') :
    getCol (dropCol r c) c' = getCol r c' := by
  induction r with
  | nil => simp [dropCol, getCol]
  | cons kv rest ih =>
      by_cases hk : kv.1 = c
      · have hk' : ¬ kv.1 = c' := by rw [hk]; exact h
        have : dropCol (kv :: rest) c = dropCol rest c := by
          simp [dropCol, List.filter, hk]
        rw [this, ih, getCol_cons, if_neg hk']
      · have : dropCol (kv :: rest) c = kv :: dropCol rest c := by
          simp [dropCol, List.filter, hk]
        rw [this, getCol_cons, getCol_cons]
        by_cases hc' : kv.1 = c'
        · simp [hc']
        · simp [hc', ih]

/-- Column names of a row, in order. -/
def cols (r : Row) : List String := r.map Prod.fst

@[simp] theorem cols_nil : cols ([] : Row) = [] := rfl

@[simp] theorem cols_cons (kv : String × Val) (rest : Row) :
    cols (kv :: rest) = kv.1 :: cols rest := rfl

@[simp] theorem cols_append (r s : Row) : cols (r ++ s) = cols r ++ cols s := by
  simp [cols]

/-- When the column is absent, assignment is plain append. -/
theorem setCol_eq_append (r : Row) (c : String) (v : Val) (h : c ∉ cols r) :
    setCol r c v = r ++ [(c, v)] := by
  induction r with
  | nil => simp
  | cons kv rest ih =>
      rw [cols_cons, List.mem_cons] at h
      push_neg at h
      rw [setCol_cons, if_neg (fun e => h.1 e.symm), ih h.2]
      rfl

/-- Assignment to a present column leaves the column-name list unchanged. -/
theorem cols_setCol_mem (r : Row) (c : String) (v : Val) (h : c ∈ cols r) :
    cols (setCol r c v) = cols r := by
  induction r with
  | nil => simp at h
  | cons kv rest ih =>
      by_cases hk : kv.1 = c
      · rw [setCol_cons, if_pos hk, cols_cons, cols_cons, hk]
      · have hmem : c ∈ cols rest := by
          rw [cols_cons, List.mem_cons] at h
          rcases h with h | h
          · exact absurd h.symm hk
          · exact h
        rw [setCol_cons, if_neg hk, cols_cons, cols_cons, ih hmem]

/-- Reading a column present in the left part of an appended row ignores
the right part. -/
theorem getCol_append_left (r s : Row) (c : String) (h : c ∈ cols r) :
    getCol (r ++ s) c = getCol r c := by
  induction r with
  | nil => simp at h
  | cons kv rest ih =>
      by_cases hk : kv.1 = c
      · rw [List.cons_append, getCol_cons, getCol_cons, if_pos hk, if_pos hk]
      · have hmem : c ∈ cols rest := by
          rw [cols_cons, List.mem_cons] at h
          rcases h with h | h
          · exact absurd h.symm hk
          · exact h
        rw [List.cons_append, getCol_cons, getCol_cons, if_neg hk, if_neg hk, ih hmem]

theorem getCol_append_right (r s : Row) (c : String) (h : c ∉ cols r) :
    getCol (r ++ s) c = getCol s c := by
  induction r with
  | nil => simp
  | cons kv rest ih =>
      rw [cols_cons, List.mem_cons] at h
      push_neg at h
      rw [List.cons_append, getCol_cons, if_neg (fun e => h.1 e.symm), ih h.2]

/-- A present column is found: `getCol` is `some` exactly on `cols`. -/
theorem getCol_isSome_iff (r : Row) (c : String) :
    (getCol r c).isSome ↔ c ∈ cols r := by
  induction r with
  | nil => simp
  | cons kv rest ih =>
      by_cases hk : kv.1 = c
      · simp [getCol_cons, hk]
      · simp [getCol_cons, hk, ih, Ne.symm hk]

theorem getCol_eq_none_of_not_mem (r : Row) (c : String) (h : c ∉ cols r) :
    getCol r c = none := by
  have hs := (getCol_isSome_iff r c).not.mpr h
  cases hg : getCol r c with
  | none => rfl
  | some v => rw [hg] at hs; simp at hs

/-! ### Port references and the spatial index

`create_proximity_columns` builds `cKDTree(port_coords)` over the columns
`[Latitude, Longitude]` of the port table and queries it with each vessel's
`[latitude, longitude]` pair (`k = 1`): a planar nearest-neighbour search.
The index is modelled by an executable k-d tree; distances are squared. -/

/-- One row of the port reference table: columns
`Main Port Name`, `Latitude`, `Longitude`. -/
structure PortRef where
  MainPortName : String
  Latitude : ℚ
  Longitude : ℚ
deriving DecidableEq, Repr

/-- Squared Euclidean distance in the raw coordinate plane between a vessel
coordinate pair `(latitude, longitude)` and a port.  `cKDTree.query` uses
the planar 2-norm on the raw degree columns, not great-circle distance. -/
def distSq (v : ℚ × ℚ) (p : PortRef) : ℚ :=
  (v.1 - p.Latitude) ^ 2 + (v.2 - p.Longitude) ^ 2

/-- Coordinate of a port along a splitting axis
(`false` = Latitude axis, `true` = Longitude axis). -/
def axCoord (a : Bool) (p : PortRef) : ℚ := if a then p.Longitude else p.Latitude

/-- Coordinate of a vessel pair `(latitude, longitude)` along an axis. -/
def vAx (a : Bool) (v : ℚ × ℚ) : ℚ := if a then v.2 else v.1

/-- A k-d tree over port references: each node splits the remaining points
on one axis at its own coordinate. -/
inductive KDTree where
  | leaf : KDTree
  | node (a : Bool) (p : PortRef) (l r : KDTree) : KDTree
deriving Repr

/-- Insert a port into a k-d tree: descend by comparing the coordinate on
each node's own splitting axis; a leaf becomes a node on the incoming
axis. -/
def insertAt : Bool → PortRef → KDTree → KDTree
  | a, q, KDTree.leaf => KDTree.node a q KDTree.leaf KDTree.leaf
  | _, q, KDTree.node a p l r =>
      if axCoord a q ≤ axCoord a p then KDTree.node a p (insertAt (!a) q l) r
      else KDTree.node a p l (insertAt (!a) q r)

/-- Build a k-d tree over the port list.  The exact splitting rule of
`cKDTree` (sliding midpoint) is a performance detail; the query
correctness proved below holds for any well-formed tree, so the index is
modelled by incremental insertion. -/
def build (a : Bool) (ps : List PortRef) : KDTree :=
  ps.foldl (fun t q => insertAt a q t) KDTree.leaf

/-- All points stored in a k-d tree, root first. -/
def KDTree.toList : KDTree → List PortRef
  | KDTree.leaf => []
  | KDTree.node _ p l r => p :: (l.toList ++ r.toList)

/-- Well-formedness: every point of the left subtree lies at or below the
node's coordinate on the node's axis, every point on the right at or above. -/
def KDTree.WF : KDTree → Prop
  | KDTree.leaf => True
  | KDTree.node a p l r =>
      (∀ q ∈ l.toList, axCoord a q ≤ axCoord a p) ∧
      (∀ q ∈ r.toList, axCoord a p ≤ axCoord a q) ∧ l.WF ∧ r.WF

/-- Challenge the best candidate so far with the node's own point, keeping
the smaller squared distance (the incumbent wins ties). -/
def updateBest (v : ℚ × ℚ) (p : PortRef) : Option (ℚ × PortRef) → Option (ℚ × PortRef)
  | none => some (distSq v p, p)
  | some db => if distSq v p < db.1 then some (distSq v p, p) else some db

/-- Pruned nearest-neighbour search: descend into the side of the splitting
plane containing the query first, and visit the far side only when the
squared distance to the splitting plane still beats the best candidate. -/
def nnSearch (v : ℚ × ℚ) : KDTree → Option (ℚ × PortRef) → Option (ℚ × PortRef)
  | KDTree.leaf, best => best
  | KDTree.node a p l r, best =>
      if vAx a v ≤ axCoord a p then
        match nnSearch v l (updateBest v p best) with
        | none => nnSearch v r none
        | some db2 =>
            if (vAx a v - axCoord a p) ^ 2 < db2.1 then nnSearch v r (some db2)
            else some db2
      else
        match nnSearch v r (updateBest v p best) with
        | none => nnSearch v l none
        | some db2 =>
            if (vAx a v - axCoord a p) ^ 2 < db2.1 then nnSearch v l (some db2)
            else some db2

/-- `cKDTree.query(v, k=1)`: squared distance and record of the nearest port. -/
def kdQuery (v : ℚ × ℚ) (t : KDTree) : Option (ℚ × PortRef) := nnSearch v t none

/-- Brute-force minimum of the squared distances from `v` to the listed
ports (`none` on an empty port list). -/
def bruteMinDistSq (v : ℚ × ℚ) : List PortRef → Option ℚ
  | [] => none
  | p :: ps => some (ps.foldl (fun acc q => min acc (distSq v q)) (distSq v p))

/-! ### Correctness of the spatial index -/

theorem mem_toList_insertAt (x : PortRef) : ∀ (t : KDTree) (a : Bool) (q : PortRef),
    x ∈ (insertAt a q t).toList ↔ x = q ∨ x ∈ t.toList := by
  intro t
  induction t with
  | leaf =>
      intro a q
      simp [insertAt, KDTree.toList]
  | node a0 p l r ihl ihr =>
      intro a q
      by_cases h : axCoord a0 q ≤ axCoord a0 p
      · rw [insertAt, if_pos h]
        simp only [KDTree.toList, List.mem_cons, List.mem_append, ihl]
        tauto
      · rw [insertAt, if_neg h]
        simp only [KDTree.toList, List.mem_cons, List.mem_append, ihr]
        tauto

theorem WF_insertAt : ∀ (t : KDTree) (a : Bool) (q : PortRef),
    t.WF → (insertAt a q t).WF := by
  intro t
  induction t with
  | leaf =>
      intro a q _
      refine ⟨?_, ?_, trivial, trivial⟩ <;> intro x hx <;>
        simp [KDTree.toList] at hx
  | node a0 p l r ihl ihr =>
      intro a q hwf
      obtain ⟨hbl, hbr, hwl, hwr⟩ := hwf
      by_cases h : axCoord a0 q ≤ axCoord a0 p
      · rw [insertAt, if_pos h]
        refine ⟨?_, hbr, ihl (!a0) q hwl, hwr⟩
        intro x hx
        rcases (mem_toList_insertAt x l (!a0) q).mp hx with hx | hx
        · rw [hx]; exact h
        · exact hbl x hx
      · rw [insertAt, if_neg h]
        refine ⟨hbl, ?_, hwl, ihr (!a0) q hwr⟩
        intro x hx
        rcases (mem_toList_insertAt x r (!a0) q).mp hx with hx | hx
        · rw [hx]; exact le_of_not_le h
        · exact hbr x hx

theorem mem_toList_build (q : PortRef) (a : Bool) (ps : List PortRef) :
    q ∈ (build a ps).toList ↔ q ∈ ps := by
  have haux : ∀ (l : List PortRef) (t : KDTree),
      (q ∈ (l.foldl (fun t x => insertAt a x t) t).toList ↔ q ∈ l ∨ q ∈ t.toList) := by
    intro l
    induction l with
    | nil => intro t; simp
    | cons x xs ih =>
        intro t
        rw [List.foldl_cons, ih, mem_toList_insertAt]
        simp only [List.mem_cons]
        tauto
  unfold build
  rw [haux ps KDTree.leaf]
  simp [KDTree.toList]

theorem build_WF (a : Bool) (ps : List PortRef) : (build a ps).WF := by
  have haux : ∀ (l : List PortRef) (t : KDTree), t.WF →
      (l.foldl (fun t x => insertAt a x t) t).WF := by
    intro l
    induction l with
    | nil => intro t ht; exact ht
    | cons x xs ih =>
        intro t ht
        rw [List.foldl_cons]
        exact ih _ (WF_insertAt t a x ht)
  exact haux ps KDTree.leaf trivial

theorem foldl_min_le_init (v : ℚ × ℚ) : ∀ (l : List PortRef) (a : ℚ),
    l.foldl (fun acc x => min acc (distSq v x)) a ≤ a := by
  intro l
  induction l with
  | nil => intro a; simp
  | cons p rest ih =>
      intro a
      rw [List.foldl_cons]
      exact le_trans (ih _) (min_le_left _ _)

theorem foldl_min_le_mem (v : ℚ × ℚ) : ∀ (l : List PortRef) (a : ℚ) (q : PortRef),
    q ∈ l → l.foldl (fun acc x => min acc (distSq v x)) a ≤ distSq v q := by
  intro l
  induction l with
  | nil => intro a q hq; simp at hq
  | cons p rest ih =>
      intro a q hq
      rw [List.foldl_cons]
      rcases List.mem_cons.mp hq with h | h
      · subst h
        exact le_trans (foldl_min_le_init v rest _) (min_le_right _ _)
      · exact ih _ _ h

theorem foldl_min_attained (v : ℚ × ℚ) : ∀ (l : List PortRef) (a : ℚ),
    l.foldl (fun acc x => min acc (distSq v x)) a = a ∨
      ∃ q ∈ l, l.foldl (fun acc x => min acc (distSq v x)) a = distSq v q := by
  intro l
  induction l with
  | nil => intro a; left; rfl
  | cons p rest ih =>
      intro a
      rw [List.foldl_cons]
      rcases ih (min a (distSq v p)) with h | ⟨q, hq, h⟩
      · rcases min_choice a (distSq v p) with hm | hm
        · left; rw [h, hm]
        · right; exact ⟨p, List.mem_cons_self _ _, by rw [h, hm]⟩
      · right; exact ⟨q, List.mem_cons_of_mem _ hq, h⟩

theorem bruteMinDistSq_le (v : ℚ × ℚ) (ps : List PortRef) (d : ℚ)
    (h : bruteMinDistSq v ps = some d) : ∀ q ∈ ps, d ≤ distSq v q := by
  cases ps with
  | nil => simp [bruteMinDistSq] at h
  | cons p rest =>
      simp only [bruteMinDistSq, Option.some_inj] at h
      intro q hq
      rcases List.mem_cons.mp hq with hh | hh
      · subst hh
        rw [← h]
        exact foldl_min_le_init v rest _
      · rw [← h]
        exact foldl_min_le_mem v rest _ q hh

theorem bruteMinDistSq_attained (v : ℚ × ℚ) (ps : List PortRef) (d : ℚ)
    (h : bruteMinDistSq v ps = some d) : ∃ q ∈ ps, d = distSq v q := by
  cases ps with
  | nil => simp [bruteMinDistSq] at h
  | cons p rest =>
      simp only [bruteMinDistSq, Option.some_inj] at h
      rcases foldl_min_attained v rest (distSq v p) with hh | ⟨q, hq, hh⟩
      · exact ⟨p, List.mem_cons_self _ _, by rw [← h, hh]⟩
      · exact ⟨q, List.mem_cons_of_mem _ hq, by rw [← h, hh]⟩

theorem bruteMinDistSq_isSome (v : ℚ × ℚ) (ps : List PortRef) (h : ps ≠ []) :
    ∃ d, bruteMinDistSq v ps = some d := by
  cases ps with
  | nil => exact absurd rfl h
  | cons p rest => exact ⟨_, rfl⟩

/-- On the near side of the splitting plane, the squared distance to the
plane bounds the squared distance to any point on the far (upper) side. -/
theorem plane_bound_le (a : Bool) (v : ℚ × ℚ) (p q : PortRef)
    (h1 : vAx a v ≤ axCoord a p) (h2 : axCoord a p ≤ axCoord a q) :
    (vAx a v - axCoord a p) ^ 2 ≤ distSq v q := by
  cases a with
  | false =>
      simp only [vAx, axCoord, Bool.false_eq_true, if_false, distSq] at h1 h2 ⊢
      nlinarith [sq_nonneg (v.2 - q.Longitude),
        mul_nonneg (sub_nonneg.mpr h2) (sub_nonneg.mpr h1),
        mul_nonneg (sub_nonneg.mpr h2) (sub_nonneg.mpr (le_trans h1 h2))]
  | true =>
      simp only [vAx, axCoord, if_true, distSq] at h1 h2 ⊢
      nlinarith [sq_nonneg (v.1 - q.Latitude),
        mul_nonneg (sub_nonneg.mpr h2) (sub_nonneg.mpr h1),
        mul_nonneg (sub_nonneg.mpr h2) (sub_nonneg.mpr (le_trans h1 h2))]

/-- Mirror image of `plane_bound_le` for a query on the upper side. -/
theorem plane_bound_ge (a : Bool) (v : ℚ × ℚ) (p q : PortRef)
    (h1 : axCoord a p ≤ vAx a v) (h2 : axCoord a q ≤ axCoord a p) :
    (vAx a v - axCoord a p) ^ 2 ≤ distSq v q := by
  cases a with
  | false =>
      simp only [vAx, axCoord, Bool.false_eq_true, if_false, distSq] at h1 h2 ⊢
      nlinarith [sq_nonneg (v.2 - q.Longitude),
        mul_nonneg (sub_nonneg.mpr h2) (sub_nonneg.mpr h1),
        mul_nonneg (sub_nonneg.mpr h2) (sub_nonneg.mpr (le_trans h2 h1))]
  | true =>
      simp only [vAx, axCoord, if_true, distSq] at h1 h2 ⊢
      nlinarith [sq_nonneg (v.1 - q.Latitude),
        mul_nonneg (sub_nonneg.mpr h2) (sub_nonneg.mpr h1),
        mul_nonneg (sub_nonneg.mpr h2) (sub_nonneg.mpr (le_trans h2 h1))]

theorem nnSearch_leaf (v : ℚ × ℚ) (best : Option (ℚ × PortRef)) :
    nnSearch v KDTree.leaf best = best := rfl

theorem nnSearch_node (v : ℚ × ℚ) (a : Bool) (p : PortRef) (l r : KDTree)
    (best : Option (ℚ × PortRef)) :
    nnSearch v (KDTree.node a p l r) best =
      if vAx a v ≤ axCoord a p then
        match nnSearch v l (updateBest v p best) with
        | none => nnSearch v r none
        | some db2 =>
            if (vAx a v - axCoord a p) ^ 2 < db2.1 then nnSearch v r (some db2)
            else some db2
      else
        match nnSearch v r (updateBest v p best) with
        | none => nnSearch v l none
        | some db2 =>
            if (vAx a v - axCoord a p) ^ 2 < db2.1 then nnSearch v l (some db2)
            else some db2 := rfl

@[simp] theorem updateBest_none (v : ℚ × ℚ) (p : PortRef) :
    updateBest v p none = some (distSq v p, p) := rfl

theorem updateBest_some (v : ℚ × ℚ) (p : PortRef) (db : ℚ × PortRef) :
    updateBest v p (some db) =
      if distSq v p < db.1 then some (distSq v p, p) else some db := rfl

theorem updateBest_isSome (v : ℚ × ℚ) (p : PortRef) (best : Option (ℚ × PortRef)) :
    ∃ x, updateBest v p best = some x := by
  cases best with
  | none => exact ⟨_, rfl⟩
  | some db =>
      rw [updateBest_some]
      by_cases h : distSq v p < db.1
      · exact ⟨_, if_pos h⟩
      · exact ⟨_, if_neg h⟩

theorem updateBest_d (v : ℚ × ℚ) (p : PortRef) (best : Option (ℚ × PortRef))
    (hb : ∀ x : ℚ × PortRef, best = some x → x.1 = distSq v x.2) :
    ∀ x : ℚ × PortRef, updateBest v p best = some x → x.1 = distSq v x.2 := by
  intro x hx
  cases best with
  | none => rw [updateBest_none] at hx; cases Option.some_inj.mp hx; rfl
  | some db =>
      rw [updateBest_some] at hx
      by_cases h : distSq v p < db.1
      · rw [if_pos h] at hx; cases Option.some_inj.mp hx; rfl
      · rw [if_neg h] at hx; cases Option.some_inj.mp hx; exact hb _ rfl

theorem updateBest_prov (v : ℚ × ℚ) (p : PortRef) (best : Option (ℚ × PortRef)) :
    ∀ x : ℚ × PortRef, updateBest v p best = some x →
      best = some x ∨ x = (distSq v p, p) := by
  intro x hx
  cases best with
  | none => rw [updateBest_none] at hx; exact Or.inr (Option.some_inj.mp hx).symm
  | some db =>
      rw [updateBest_some] at hx
      by_cases h : distSq v p < db.1
      · rw [if_pos h] at hx; exact Or.inr (Option.some_inj.mp hx).symm
      · rw [if_neg h] at hx; exact Or.inl hx

theorem updateBest_le_p (v : ℚ × ℚ) (p : PortRef) (best : Option (ℚ × PortRef)) :
    ∀ x : ℚ × PortRef, updateBest v p best = some x → x.1 ≤ distSq v p := by
  intro x hx
  cases best with
  | none => rw [updateBest_none] at hx; cases Option.some_inj.mp hx; exact le_refl _
  | some db =>
      rw [updateBest_some] at hx
      by_cases h : distSq v p < db.1
      · rw [if_pos h] at hx; cases Option.some_inj.mp hx; exact le_refl _
      · rw [if_neg h] at hx; cases Option.some_inj.mp hx; exact le_of_not_lt h

theorem updateBest_le_best (v : ℚ × ℚ) (p : PortRef) (best : Option (ℚ × PortRef)) :
    ∀ x y : ℚ × PortRef, updateBest v p best = some x → best = some y → x.1 ≤ y.1 := by
  intro x y hx hy
  rw [hy, updateBest_some] at hx
  by_cases h : distSq v p < y.1
  · rw [if_pos h] at hx; cases Option.some_inj.mp hx; exact le_of_lt h
  · rw [if_neg h] at hx; cases Option.some_inj.mp hx; exact le_refl _

/-- Full specification of the pruned search on one subtree: it returns a
candidate at true squared distance, drawn from the incoming candidate or
the subtree, no farther than every subtree point and no farther than the
incoming candidate. -/
def SearchInv (v : ℚ × ℚ) (t : KDTree) : Prop :=
  ∀ best : Option (ℚ × PortRef),
    (∀ x : ℚ × PortRef, best = some x → x.1 = distSq v x.2) →
    (nnSearch v t best = none → best = none ∧ t.toList = []) ∧
    (∀ x : ℚ × PortRef, nnSearch v t best = some x →
      x.1 = distSq v x.2 ∧
      (best = some x ∨ x.2 ∈ t.toList) ∧
      (∀ q ∈ t.toList, x.1 ≤ distSq v q) ∧
      (∀ y : ℚ × PortRef, best = some y → x.1 ≤ y.1))

/-- The far-side step of the search: either the plane distance still beats
the candidate and the far subtree is searched, or the far subtree is
pruned; in both cases the result is sound. -/
theorem stepSpec (v : ℚ × ℚ) (dq : ℚ) (far : KDTree) (best : Option (ℚ × PortRef))
    (db2 : ℚ × PortRef) (P : PortRef → Prop)
    (Ifar : SearchInv v far)
    (hfar : ∀ q ∈ far.toList, dq ≤ distSq v q)
    (h2d : db2.1 = distSq v db2.2)
    (h2prov : best = some db2 ∨ P db2.2) :
    ∃ x, (if dq < db2.1 then nnSearch v far (some db2) else some db2) = some x ∧
      x.1 = distSq v x.2 ∧
      (best = some x ∨ P x.2 ∨ x.2 ∈ far.toList) ∧
      (∀ q ∈ far.toList, x.1 ≤ distSq v q) ∧
      x.1 ≤ db2.1 := by
  by_cases hp : dq < db2.1
  · rw [if_pos hp]
    have hb2 : ∀ x : ℚ × PortRef, (some db2 : Option (ℚ × PortRef)) = some x →
        x.1 = distSq v x.2 := by
      intro x hx; cases Option.some_inj.mp hx; exact h2d
    obtain ⟨hnone, hsome⟩ := Ifar (some db2) hb2
    cases hres : nnSearch v far (some db2) with
    | none => exact absurd (hnone hres).1 (by simp)
    | some x =>
        obtain ⟨hxd, hxprov, hxlb, hxle⟩ := hsome x hres
        refine ⟨x, rfl, hxd, ?_, hxlb, hxle db2 rfl⟩
        rcases hxprov with h | h
        · cases Option.some_inj.mp h
          rcases h2prov with h0 | h0
          · exact Or.inl h0
          · exact Or.inr (Or.inl h0)
        · exact Or.inr (Or.inr h)
  · rw [if_neg hp]
    refine ⟨db2, rfl, h2d, ?_, ?_, le_refl _⟩
    · rcases h2prov with h | h
      · exact Or.inl h
      · exact Or.inr (Or.inl h)
    · intro q hq
      exact le_trans (le_of_not_lt hp) (hfar q hq)

/-- The pruned nearest-neighbour search is correct on well-formed trees. -/
theorem searchInv (v : ℚ × ℚ) : ∀ t : KDTree, t.WF → SearchInv v t := by
  intro t
  induction t with
  | leaf =>
      intro _ best hb
      constructor
      · intro h
        rw [nnSearch_leaf] at h
        exact ⟨h, rfl⟩
      · intro x hx
        rw [nnSearch_leaf] at hx
        refine ⟨hb x hx, Or.inl hx, ?_, ?_⟩
        · intro q hq
          simp [KDTree.toList] at hq
        · intro y hy
          rw [hx] at hy
          cases Option.some_inj.mp hy
          exact le_refl _
  | node a p l r ihl ihr =>
      intro hwf
      obtain ⟨hbl, hbr, hwl, hwr⟩ := hwf
      intro best hb
      have Il := ihl hwl
      have Ir := ihr hwr
      obtain ⟨b1, hb1⟩ := updateBest_isSome v p best
      have hb1d := updateBest_d v p best hb
      by_cases hside : vAx a v ≤ axCoord a p
      · -- query on the lower side: near subtree is the left one
        have hfar : ∀ q ∈ r.toList, (vAx a v - axCoord a p) ^ 2 ≤ distSq v q :=
          fun q hq => plane_bound_le a v p q hside (hbr q hq)
        obtain ⟨hln, hls⟩ := Il (updateBest v p best) hb1d
        cases hnear : nnSearch v l (updateBest v p best) with
        | none =>
            exfalso
            have h0 := (hln hnear).1
            rw [hb1] at h0
            cases h0
        | some db2 =>
            obtain ⟨h2d, h2prov, h2lb, h2le⟩ := hls db2 hnear
            have h2prov2 : best = some db2 ∨ (db2.2 = p ∨ db2.2 ∈ l.toList) := by
              rcases h2prov with h | h
              · rcases updateBest_prov v p best db2 h with h0 | h0
                · exact Or.inl h0
                · exact Or.inr (Or.inl (by rw [h0]))
              · exact Or.inr (Or.inr h)
            obtain ⟨x, hxeq, hxd, hxprov, hxfar, hxle2⟩ :=
              stepSpec v ((vAx a v - axCoord a p) ^ 2) r best db2
                (fun b => b = p ∨ b ∈ l.toList) Ir hfar h2d h2prov2
            have heq2 : nnSearch v (KDTree.node a p l r) best = some x := by
              rw [nnSearch_node, if_pos hside, hnear]
              exact hxeq
            have hxp : x.1 ≤ distSq v p :=
              le_trans hxle2 (le_trans (h2le b1 hb1) (updateBest_le_p v p best b1 hb1))
            constructor
            · intro h0
              rw [heq2] at h0
              cases h0
            · intro y hy
              rw [heq2] at hy
              cases Option.some_inj.mp hy
              refine ⟨hxd, ?_, ?_, ?_⟩
              · rcases hxprov with h | h | h
                · exact Or.inl h
                · rcases h with h | h
                  · exact Or.inr (by rw [h]; exact List.mem_cons_self _ _)
                  · exact Or.inr (List.mem_cons_of_mem _ (List.mem_append_left _ h))
                · exact Or.inr (List.mem_cons_of_mem _ (List.mem_append_right _ h))
              · intro q hq
                simp only [KDTree.toList, List.mem_cons, List.mem_append] at hq
                rcases hq with rfl | hq | hq
                · exact hxp
                · exact le_trans hxle2 (h2lb q hq)
                · exact hxfar q hq
              · intro y2 hy2
                exact le_trans hxle2
                  (le_trans (h2le b1 hb1) (updateBest_le_best v p best b1 y2 hb1 hy2))
      · -- query on the upper side: near subtree is the right one
        have hside2 : axCoord a p ≤ vAx a v := le_of_not_le hside
        have hfar : ∀ q ∈ l.toList, (vAx a v - axCoord a p) ^ 2 ≤ distSq v q :=
          fun q hq => plane_bound_ge a v p q hside2 (hbl q hq)
        obtain ⟨hrn, hrs⟩ := Ir (updateBest v p best) hb1d
        cases hnear : nnSearch v r (updateBest v p best) with
        | none =>
            exfalso
            have h0 := (hrn hnear).1
            rw [hb1] at h0
            cases h0
        | some db2 =>
            obtain ⟨h2d, h2prov, h2lb, h2le⟩ := hrs db2 hnear
            have h2prov2 : best = some db2 ∨ (db2.2 = p ∨ db2.2 ∈ r.toList) := by
              rcases h2prov with h | h
              · rcases updateBest_prov v p best db2 h with h0 | h0
                · exact Or.inl h0
                · exact Or.inr (Or.inl (by rw [h0]))
              · exact Or.inr (Or.inr h)
            obtain ⟨x, hxeq, hxd, hxprov, hxfar, hxle2⟩ :=
              stepSpec v ((vAx a v - axCoord a p) ^ 2) l best db2
                (fun b => b = p ∨ b ∈ r.toList) Il hfar h2d h2prov2
            have heq2 : nnSearch v (KDTree.node a p l r) best = some x := by
              rw [nnSearch_node, if_neg hside, hnear]
              exact hxeq
            have hxp : x.1 ≤ distSq v p :=
              le_trans hxle2 (le_trans (h2le b1 hb1) (updateBest_le_p v p best b1 hb1))
            constructor
            · intro h0
              rw [heq2] at h0
              cases h0
            · intro y hy
              rw [heq2] at hy
              cases Option.some_inj.mp hy
              refine ⟨hxd, ?_, ?_, ?_⟩
              · rcases hxprov with h | h | h
                · exact Or.inl h
                · rcases h with h | h
                  · exact Or.inr (by rw [h]; exact List.mem_cons_self _ _)
                  · exact Or.inr (List.mem_cons_of_mem _ (List.mem_append_right _ h))
                · exact Or.inr (List.mem_cons_of_mem _ (List.mem_append_left _ h))
              · intro q hq
                simp only [KDTree.toList, List.mem_cons, List.mem_append] at hq
                rcases hq with rfl | hq | hq
                · exact hxp
                · exact hxfar q hq
                · exact le_trans hxle2 (h2lb q hq)
              · intro y2 hy2
                exact le_trans hxle2
                  (le_trans (h2le b1 hb1) (updateBest_le_best v p best b1 y2 hb1 hy2))

/-- A nonempty port list always yields a nearest port: true squared
distance, a member of the list, minimal among all members. -/
theorem kdQuery_spec (v : ℚ × ℚ) (a : Bool) (ps : List PortRef) (h : ps ≠ []) :
    ∃ d b, kdQuery v (build a ps) = some (d, b) ∧ d = distSq v b ∧ b ∈ ps ∧
      ∀ q ∈ ps, d ≤ distSq v q := by
  have hwf := build_WF a ps
  have hinv := searchInv v (build a ps) hwf
  obtain ⟨hnone, hsome⟩ := hinv none (by intro x hx; cases hx)
  cases hres : kdQuery v (build a ps) with
  | none =>
      exfalso
      have hempty := (hnone hres).2
      cases ps with
      | nil => exact h rfl
      | cons p rest =>
          have hp : p ∈ (build a (p :: rest)).toList :=
            (mem_toList_build p a (p :: rest)).mpr (List.mem_cons_self _ _)
          rw [hempty] at hp
          cases hp
  | some db =>
      obtain ⟨hd, hprov, hlb, _⟩ := hsome db hres
      refine ⟨db.1, db.2, by rw [← hres], hd, ?_, ?_⟩
      · rcases hprov with h0 | h0
        · cases h0
        · exact (mem_toList_build db.2 a ps).mp h0
      · intro q hq
        exact hlb q ((mem_toList_build q a ps).mpr hq)

/-- The k-d tree query agrees with the brute-force minimum of squared
distances over the port list, including the empty case. -/
theorem kdQuery_fst_eq_brute (v : ℚ × ℚ) (a : Bool) (ps : List PortRef) :
    (kdQuery v (build a ps)).map Prod.fst = bruteMinDistSq v ps := by
  by_cases h : ps = []
  · subst h
    simp [kdQuery, build, nnSearch_leaf, bruteMinDistSq]
  · obtain ⟨d, b, hq, hd, hmem, hlb⟩ := kdQuery_spec v a ps h
    obtain ⟨m, hm⟩ := bruteMinDistSq_isSome v ps h
    have h1 : m ≤ d := by
      rw [hd]
      exact bruteMinDistSq_le v ps m hm b hmem
    have h2 : d ≤ m := by
      obtain ⟨q, hqmem, hqe⟩ := bruteMinDistSq_attained v ps m hm
      rw [hqe]
      exact hlb q hqmem
    rw [hq, hm]
    simp [le_antisymm h2 h1]

/-! ### Nearest-port annotation (`create_proximity_columns`) -/

/-- The yes/no value of a threshold flag.  The source computes
`np.where(df["Distance to Nearest Port"] <= dist, "Yes", "No")`; with
squared distances the comparison `distance <= t` becomes `dSq <= t ^ 2`
(both sides nonnegative, squaring is monotone). -/
def leFlag (dSq t : ℚ) : Val :=
  if dSq ≤ t ^ 2 then Val.str "Yes" else Val.str "No"

/-- The eight column assignments of `create_proximity_columns`, in source
order, for one row: distance, nearest-port name and coordinates (all
obtained from the single `port_tree.query` result `dp`), then the four
threshold flags. -/
def annotate (r : Row) (dp : ℚ × PortRef) : Row :=
  setCol (setCol (setCol (setCol (setCol (setCol (setCol (setCol r
    "Distance to Nearest Port" (Val.num dp.1))
    "Proximity Port Name" (Val.str dp.2.MainPortName))
    "Port Latitude" (Val.num dp.2.Latitude))
    "Port Longitude" (Val.num dp.2.Longitude))
    "Less than 1 km from port" (leFlag dp.1 1))
    "Less than 3 km from port" (leFlag dp.1 3))
    "Less than 5 km from port" (leFlag dp.1 5))
    "Less than 10 km from port" (leFlag dp.1 10)

/-- The `.loc[...] = ["No", np.nan, np.nan]` assignment that removes port
attribution for vessels not near any port. -/
def suppress (r : Row) : Row :=
  setCol (setCol (setCol r
    "Proximity Port Name" (Val.str "No"))
    "Port Latitude" Val.null)
    "Port Longitude" Val.null

/-- Annotate one vessel row: query the spatial index with the row's
`(latitude, longitude)` pair, add the proximity columns, then apply the
suppression rule when all four flags read back as `"No"`.  The `none`
branch arises only for an empty port table, on which the source itself
fails (`port_names[i]` raises); every claim below assumes a nonempty port
table. -/
def addProximity (t : KDTree) (r : Row) : Row :=
  match kdQuery (getQ r "latitude", getQ r "longitude") t with
  | none => r
  | some dp =>
      let r8 := annotate r dp
      if getCol r8 "Less than 1 km from port" = some (Val.str "No") ∧
         getCol r8 "Less than 3 km from port" = some (Val.str "No") ∧
         getCol r8 "Less than 5 km from port" = some (Val.str "No") ∧
         getCol r8 "Less than 10 km from port" = some (Val.str "No") then
        suppress r8
      else r8

/-- `create_proximity_columns`: build the spatial index over the port
table once, then annotate every row with it. -/
def create_proximity_columns (df : List Row) (port_info : List PortRef) : List Row :=
  df.map (addProximity (build false port_info))

theorem annotate_dist (r : Row) (dp : ℚ × PortRef) :
    getCol (annotate r dp) "Distance to Nearest Port" = some (Val.num dp.1) := by
  unfold annotate
  rw [getCol_setCol_ne _ _ _ _ (by decide), getCol_setCol_ne _ _ _ _ (by decide),
    getCol_setCol_ne _ _ _ _ (by decide), getCol_setCol_ne _ _ _ _ (by decide),
    getCol_setCol_ne _ _ _ _ (by decide), getCol_setCol_ne _ _ _ _ (by decide),
    getCol_setCol_ne _ _ _ _ (by decide), getCol_setCol_same]

theorem annotate_ppn (r : Row) (dp : ℚ × PortRef) :
    getCol (annotate r dp) "Proximity Port Name" = some (Val.str dp.2.MainPortName) := by
  unfold annotate
  rw [getCol_setCol_ne _ _ _ _ (by decide), getCol_setCol_ne _ _ _ _ (by decide),
    getCol_setCol_ne _ _ _ _ (by decide), getCol_setCol_ne _ _ _ _ (by decide),
    getCol_setCol_ne _ _ _ _ (by decide), getCol_setCol_ne _ _ _ _ (by decide),
    getCol_setCol_same]

theorem annotate_plat (r : Row) (dp : ℚ × PortRef) :
    getCol (annotate r dp) "Port Latitude" = some (Val.num dp.2.Latitude) := by
  unfold annotate
  rw [getCol_setCol_ne _ _ _ _ (by decide), getCol_setCol_ne _ _ _ _ (by decide),
    getCol_setCol_ne _ _ _ _ (by decide), getCol_setCol_ne _ _ _ _ (by decide),
    getCol_setCol_ne _ _ _ _ (by decide), getCol_setCol_same]

theorem annotate_plon (r : Row) (dp : ℚ × PortRef) :
    getCol (annotate r dp) "Port Longitude" = some (Val.num dp.2.Longitude) := by
  unfold annotate
  rw [getCol_setCol_ne _ _ _ _ (by decide), getCol_setCol_ne _ _ _ _ (by decide),
    getCol_setCol_ne _ _ _ _ (by decide), getCol_setCol_ne _ _ _ _ (by decide),
    getCol_setCol_same]

theorem annotate_flag1 (r : Row) (dp : ℚ × PortRef) :
    getCol (annotate r dp) "Less than 1 km from port" = some (leFlag dp.1 1) := by
  unfold annotate
  rw [getCol_setCol_ne _ _ _ _ (by decide), getCol_setCol_ne _ _ _ _ (by decide),
    getCol_setCol_ne _ _ _ _ (by decide), getCol_setCol_same]

theorem annotate_flag3 (r : Row) (dp : ℚ × PortRef) :
    getCol (annotate r dp) "Less than 3 km from port" = some (leFlag dp.1 3) := by
  unfold annotate
  rw [getCol_setCol_ne _ _ _ _ (by decide), getCol_setCol_ne _ _ _ _ (by decide),
    getCol_setCol_same]

theorem annotate_flag5 (r : Row) (dp : ℚ × PortRef) :
    getCol (annotate r dp) "Less than 5 km from port" = some (leFlag dp.1 5) := by
  unfold annotate
  rw [getCol_setCol_ne _ _ _ _ (by decide), getCol_setCol_same]

theorem annotate_flag10 (r : Row) (dp : ℚ × PortRef) :
    getCol (annotate r dp) "Less than 10 km from port" = some (leFlag dp.1 10) := by
  unfold annotate
  rw [getCol_setCol_same]

/-- Any column other than the eight annotation targets is untouched. -/
theorem annotate_other (r : Row) (dp : ℚ × PortRef) (c : String)
    (h1 : c ≠ "Distance to Nearest Port") (h2 : c ≠ "Proximity Port Name")
    (h3 : c ≠ "Port Latitude") (h4 : c ≠ "Port Longitude")
    (h5 : c ≠ "Less than 1 km from port") (h6 : c ≠ "Less than 3 km from port")
    (h7 : c ≠ "Less than 5 km from port") (h8 : c ≠ "Less than 10 km from port") :
    getCol (annotate r dp) c = getCol r c := by
  unfold annotate
  rw [getCol_setCol_ne _ _ _ _ (Ne.symm h8), getCol_setCol_ne _ _ _ _ (Ne.symm h7),
    getCol_setCol_ne _ _ _ _ (Ne.symm h6), getCol_setCol_ne _ _ _ _ (Ne.symm h5),
    getCol_setCol_ne _ _ _ _ (Ne.symm h4), getCol_setCol_ne _ _ _ _ (Ne.symm h3),
    getCol_setCol_ne _ _ _ _ (Ne.symm h2), getCol_setCol_ne _ _ _ _ (Ne.symm h1)]

theorem suppress_ppn (r : Row) :
    getCol (suppress r) "Proximity Port Name" = some (Val.str "No") := by
  unfold suppress
  rw [getCol_setCol_ne _ _ _ _ (by decide), getCol_setCol_ne _ _ _ _ (by decide),
    getCol_setCol_same]

theorem suppress_plat (r : Row) :
    getCol (suppress r) "Port Latitude" = some Val.null := by
  unfold suppress
  rw [getCol_setCol_ne _ _ _ _ (by decide), getCol_setCol_same]

theorem suppress_plon (r : Row) :
    getCol (suppress r) "Port Longitude" = some Val.null := by
  unfold suppress
  rw [getCol_setCol_same]

theorem suppress_other (r : Row) (c : String)
    (h2 : c ≠ "Proximity Port Name") (h3 : c ≠ "Port Latitude")
    (h4 : c ≠ "Port Longitude") :
    getCol (suppress r) c = getCol r c := by
  unfold suppress
  rw [getCol_setCol_ne _ _ _ _ (Ne.symm h4), getCol_setCol_ne _ _ _ _ (Ne.symm h3),
    getCol_setCol_ne _ _ _ _ (Ne.symm h2)]

/-- The threshold flags, being nested, read back all-"No" exactly when the
squared distance exceeds the largest squared threshold. -/
theorem allNo_iff (r : Row) (dp : ℚ × PortRef) :
    (getCol (annotate r dp) "Less than 1 km from port" = some (Val.str "No") ∧
     getCol (annotate r dp) "Less than 3 km from port" = some (Val.str "No") ∧
     getCol (annotate r dp) "Less than 5 km from port" = some (Val.str "No") ∧
     getCol (annotate r dp) "Less than 10 km from port" = some (Val.str "No")) ↔
      100 < dp.1 := by
  rw [annotate_flag1, annotate_flag3, annotate_flag5, annotate_flag10]
  unfold leFlag
  constructor
  · intro h
    by_contra hc
    have hle : dp.1 ≤ (10 : ℚ) ^ 2 := by
      rw [not_lt] at hc
      norm_num
      exact hc
    rw [if_pos hle] at h
    exact absurd h.2.2.2 (by decide)
  · intro h
    have h10 : ¬ dp.1 ≤ (10 : ℚ) ^ 2 := by norm_num; linarith
    have h5 : ¬ dp.1 ≤ (5 : ℚ) ^ 2 := by norm_num; linarith
    have h3 : ¬ dp.1 ≤ (3 : ℚ) ^ 2 := by norm_num; linarith
    have h1 : ¬ dp.1 ≤ (1 : ℚ) ^ 2 := by norm_num; linarith
    rw [if_neg h1, if_neg h3, if_neg h5, if_neg h10]
    exact ⟨rfl, rfl, rfl, rfl⟩

/-- `addProximity` on a successful query is `annotate`, wrapped in
`suppress` exactly when the squared distance exceeds `10 ^ 2`. -/
theorem addProximity_eq (t : KDTree) (r : Row) (dp : ℚ × PortRef)
    (hq : kdQuery (getQ r "latitude", getQ r "longitude") t = some dp) :
    addProximity t r =
      if 100 < dp.1 then suppress (annotate r dp) else annotate r dp := by
  unfold addProximity
  rw [hq]
  simp only [allNo_iff]

theorem setCol_append_left_of_not_mem (r s : Row) (c : String) (v : Val)
    (h : c ∉ cols r) : setCol (r ++ s) c v = r ++ setCol s c v := by
  induction r with
  | nil => simp
  | cons kv rest ih =>
      rw [cols_cons, List.mem_cons] at h
      push_neg at h
      rw [List.cons_append, setCol_cons, if_neg (fun e => h.1 e.symm), ih h.2,
        List.cons_append]

theorem dropCol_append (r s : Row) (c : String) :
    dropCol (r ++ s) c = dropCol r c ++ dropCol s c := by
  simp [dropCol]

theorem dropCol_of_not_mem (r : Row) (c : String) (h : c ∉ cols r) :
    dropCol r c = r := by
  induction r with
  | nil => rfl
  | cons kv rest ih =>
      rw [cols_cons, List.mem_cons] at h
      push_neg at h
      have hne : ¬ kv.1 = c := fun e => h.1 e.symm
      have hstep : dropCol (kv :: rest) c = kv :: dropCol rest c := by
        simp [dropCol, List.filter, hne]
      rw [hstep, ih h.2]

/-- Assigning a run of fresh, pairwise distinct columns appends them. -/
theorem foldl_setCol_fresh : ∀ (ext r : Row),
    (∀ c ∈ cols ext, c ∉ cols r) → (cols ext).Nodup →
    ext.foldl (fun acc kv => setCol acc kv.1 kv.2) r = r ++ ext := by
  intro ext
  induction ext with
  | nil => intro r _ _; simp
  | cons kv rest ih =>
      intro r h hno
      rw [cols_cons, List.nodup_cons] at hno
      rw [List.foldl_cons,
        setCol_eq_append _ _ _ (h kv.1 (by rw [cols_cons]; exact List.mem_cons_self _ _))]
      have hfresh : ∀ c ∈ cols rest, c ∉ cols (r ++ [kv]) := by
        intro c hc
        rw [cols_append, List.mem_append]
        rintro (hmem | hmem)
        · exact h c (by rw [cols_cons]; exact List.mem_cons_of_mem _ hc) hmem
        · have : c = kv.1 := by simpa [cols] using hmem
          exact hno.1 (this ▸ hc)
      rw [ih (r ++ [kv]) hfresh hno.2, List.append_assoc]
      rfl

/-- The eight fresh columns added by `annotate`, with their values. -/
def proximityExt (dp : ℚ × PortRef) : Row :=
  [("Distance to Nearest Port", Val.num dp.1),
   ("Proximity Port Name", Val.str dp.2.MainPortName),
   ("Port Latitude", Val.num dp.2.Latitude),
   ("Port Longitude", Val.num dp.2.Longitude),
   ("Less than 1 km from port", leFlag dp.1 1),
   ("Less than 3 km from port", leFlag dp.1 3),
   ("Less than 5 km from port", leFlag dp.1 5),
   ("Less than 10 km from port", leFlag dp.1 10)]

/-- The column names written by `create_proximity_columns`. -/
def proximityCols : List String :=
  ["Distance to Nearest Port", "Proximity Port Name", "Port Latitude",
   "Port Longitude", "Less than 1 km from port", "Less than 3 km from port",
   "Less than 5 km from port", "Less than 10 km from port"]

theorem cols_proximityExt (dp : ℚ × PortRef) :
    cols (proximityExt dp) = proximityCols := rfl

/-- On a row not already carrying any proximity column, `annotate` is a
plain append of the eight new columns. -/
theorem annotate_eq_append (r : Row) (dp : ℚ × PortRef)
    (h : ∀ c ∈ proximityCols, c ∉ cols r) :
    annotate r dp = r ++ proximityExt dp := by
  have heq : annotate r dp =
      (proximityExt dp).foldl (fun acc kv => setCol acc kv.1 kv.2) r := rfl
  rw [heq, foldl_setCol_fresh _ _ ?_ ?_]
  · intro c hc
    exact h c (by rwa [cols_proximityExt] at hc)
  · rw [cols_proximityExt]
    decide

theorem cols_suppress (r : Row)
    (h2 : "Proximity Port Name" ∈ cols r) (h3 : "Port Latitude" ∈ cols r)
    (h4 : "Port Longitude" ∈ cols r) : cols (suppress r) = cols r := by
  unfold suppress
  have hA : cols (setCol r "Proximity Port Name" (Val.str "No")) = cols r :=
    cols_setCol_mem _ _ _ h2
  have h3A : "Port Latitude" ∈ cols (setCol r "Proximity Port Name" (Val.str "No")) := by
    rw [hA]; exact h3
  have hB : cols (setCol (setCol r "Proximity Port Name" (Val.str "No"))
      "Port Latitude" Val.null) = cols r := by
    rw [cols_setCol_mem _ _ _ h3A, hA]
  have h4B : "Port Longitude" ∈ cols (setCol (setCol r "Proximity Port Name" (Val.str "No"))
      "Port Latitude" Val.null) := by
    rw [hB]; exact h4
  rw [cols_setCol_mem _ _ _ h4B, hB]

theorem suppress_append (r ext : Row)
    (h2 : "Proximity Port Name" ∉ cols r) (h3 : "Port Latitude" ∉ cols r)
    (h4 : "Port Longitude" ∉ cols r) :
    suppress (r ++ ext) = r ++ suppress ext := by
  unfold suppress
  rw [setCol_append_left_of_not_mem _ _ _ _ h2,
    setCol_append_left_of_not_mem _ _ _ _ h3,
    setCol_append_left_of_not_mem _ _ _ _ h4]

/-! ### Polygon containment (`process_with_polygons`)

The polygon reference table has a geometry column (`polygon`, reprojected
to EPSG:4326) and a `port_name` column.  `gpd.sjoin(..., how='left',
predicate='within')` pairs each vessel point with every polygon it lies
strictly within; shapely's `within` for a point is interior membership, so
a point merely touching a boundary does not match.  The geometric test is
modelled by the standard even-odd ray-crossing rule with an explicit
boundary exclusion. -/

/-- One row of the polygon reference table. -/
structure Polygon where
  port_name : String
  ring : List (ℚ × ℚ)
deriving DecidableEq, Repr

/-- Edges of the polygon ring: each vertex paired with its cyclic successor. -/
def Polygon.edgeList (pl : Polygon) : List ((ℚ × ℚ) × (ℚ × ℚ)) :=
  pl.ring.zip (pl.ring.rotate 1)

/-- Is point `p` on the closed segment from `e.1` to `e.2`? -/
def onSegment (p : ℚ × ℚ) (e : (ℚ × ℚ) × (ℚ × ℚ)) : Bool :=
  decide ((e.2.1 - e.1.1) * (p.2 - e.1.2) = (e.2.2 - e.1.2) * (p.1 - e.1.1) ∧
    min e.1.1 e.2.1 ≤ p.1 ∧ p.1 ≤ max e.1.1 e.2.1 ∧
    min e.1.2 e.2.2 ≤ p.2 ∧ p.2 ≤ max e.1.2 e.2.2)

/-- Does the horizontal ray from `p` to the right cross edge `e`?  The
half-open rule of even-odd point-in-polygon tests. -/
def rayCrosses (p : ℚ × ℚ) (e : (ℚ × ℚ) × (ℚ × ℚ)) : Bool :=
  decide (((e.1.2 ≤ p.2 ∧ p.2 < e.2.2) ∨ (e.2.2 ≤ p.2 ∧ p.2 < e.1.2)) ∧
    p.1 < e.1.1 + (p.2 - e.1.2) * (e.2.1 - e.1.1) / (e.2.2 - e.1.2))

/-- Shapely's `within` for a point and a polygon: strictly inside, i.e.
inside by the even-odd rule and on no boundary segment. -/
def within (p : ℚ × ℚ) (pl : Polygon) : Bool :=
  pl.edgeList.all (fun e => ! onSegment p e) &&
    (pl.edgeList.countP (rayCrosses p) % 2 == 1)

/-- The matching right-hand rows of the containment join for one point:
every polygon (with its positional index, the future `index_right`)
containing the point. -/
def polyMatches (pt : ℚ × ℚ) (polys : List Polygon) : List (ℕ × Polygon) :=
  polys.enum.filter (fun ip => within pt ip.2)

/-- `notnull` on a cell. -/
def isNumVal : Val → Bool
  | Val.num _ => true
  | _ => false

/-- One record through `process_chunk`: create the point geometry column
from `(longitude, latitude)`, left-join against the polygons (one output
row per match; a single row with null right columns when nothing matches),
derive `Parked in Port` (= `index_right.notnull()`) and `Port Name`
(= `port_name.where(parked, "No")`), then drop `geometry` and
`index_right`.  The joined `port_name` column itself is kept, as in the
source. -/
def joinRecord (polys : List Polygon) (r : Row) : List Row :=
  let r1 := setCol r "geometry" (Val.point (getQ r "longitude") (getQ r "latitude"))
  let joined :=
    match polyMatches (getQ r "longitude", getQ r "latitude") polys with
    | [] => [setCol (setCol r1 "port_name" Val.null) "index_right" Val.null]
    | ms => ms.map (fun (ip : ℕ × Polygon) =>
        setCol (setCol r1 "port_name" (Val.str ip.2.port_name))
          "index_right" (Val.num ip.1))
  joined.map (fun rj =>
    let parked := isNumVal ((getCol rj "index_right").getD Val.null)
    let r2 := setCol rj "Parked in Port" (Val.boolean parked)
    let r3 := setCol r2 "Port Name"
      (if parked then (getCol r2 "port_name").getD Val.null else Val.str "No")
    dropCol (dropCol r3 "geometry") "index_right")

/-- `process_chunk` over a whole chunk. -/
def process_chunk (polys : List Polygon) (chunk : List Row) : List Row :=
  chunk.flatMap (joinRecord polys)

/-- `process_with_polygons`: cut the dataframe into contiguous chunks
(python `range(0, len(df), chunk_size)` with `iloc[i:i+chunk_size]`),
process each chunk, and concatenate.  `pd.concat` raises on an empty list
of results, modelled by `none`. -/
def process_with_polygons (df : List Row) (polys : List Polygon)
    (chunk_size : ℕ) : Option (List Row) :=
  let results := (List.range ((df.length + chunk_size - 1) / chunk_size)).map
    (fun k => process_chunk polys ((df.drop (k * chunk_size)).take chunk_size))
  if results.isEmpty then none else some results.flatten

theorem process_chunk_append (polys : List Polygon) (xs ys : List Row) :
    process_chunk polys (xs ++ ys) =
      process_chunk polys xs ++ process_chunk polys ys := by
  simp [process_chunk]

theorem process_chunk_join (polys : List Polygon) : ∀ ls : List (List Row),
    process_chunk polys ls.flatten = (ls.map (process_chunk polys)).flatten := by
  intro ls
  induction ls with
  | nil => rfl
  | cons x xs ih =>
      rw [List.flatten_cons, List.map_cons, List.flatten_cons, process_chunk_append, ih]

/-- Splitting into chunks of size `c > 0` and re-concatenating restores
the dataframe. -/
theorem chunks_join (c : ℕ) (hc : 0 < c) : ∀ (n : ℕ) (l : List Row), l.length ≤ n →
    ((List.range ((l.length + c - 1) / c)).map
      (fun k => (l.drop (k * c)).take c)).flatten = l := by
  intro n
  induction n with
  | zero =>
      intro l hl
      have hnil : l = [] := List.length_eq_zero.mp (Nat.le_zero.mp hl)
      subst hnil
      have hz : (0 + c - 1) / c = 0 := Nat.div_eq_of_lt (by omega)
      simp [hz]
  | succ n ih =>
      intro l hl
      cases hl0 : l with
      | nil =>
          have hz : (0 + c - 1) / c = 0 := Nat.div_eq_of_lt (by omega)
          simp [hz]
      | cons x xs =>
          subst hl0
          have hlen : (x :: xs).length = xs.length + 1 := rfl
          have hpos : 1 ≤ (x :: xs).length := by simp
          have hcount : ((x :: xs).length + c - 1) / c = ((x :: xs).length - 1) / c + 1 := by
            have he : (x :: xs).length + c - 1 = ((x :: xs).length - 1) + c := by omega
            rw [he, Nat.add_div_right _ hc]
          rw [hcount, List.range_succ_eq_map, List.map_cons, List.flatten_cons,
            List.map_map]
          have hshift : ∀ k : ℕ, k ∈ List.range (((x :: xs).length - 1) / c) →
              ((fun k => ((x :: xs).drop (k * c)).take c) ∘ Nat.succ) k =
                (fun k => (((x :: xs).drop c).drop (k * c)).take c) k := by
            intro k _
            simp only [Function.comp]
            rw [List.drop_drop, show c + k * c = Nat.succ k * c from by
              rw [Nat.succ_eq_add_one]; ring]
          rw [List.map_congr_left hshift]
          have hm : (((x :: xs).drop c).length + c - 1) / c = ((x :: xs).length - 1) / c := by
            rw [List.length_drop]
            rcases le_or_lt c (x :: xs).length with h | h
            · congr 1
              omega
            · have e1 : (x :: xs).length - c = 0 := by omega
              rw [e1,
                show (0 + c - 1) / c = 0 from Nat.div_eq_of_lt (by omega),
                show ((x :: xs).length - 1) / c = 0 from Nat.div_eq_of_lt (by omega)]
          have hlen2 : ((x :: xs).drop c).length ≤ n := by
            rw [List.length_drop]
            omega
          have hih := ih ((x :: xs).drop c) hlen2
          rw [hm] at hih
          rw [hih]
          simp

/-- The containment stage on an empty dataframe: zero chunks, and
`pd.concat([])` raises — no output at all. -/
theorem process_with_polygons_nil (polys : List Polygon) (c : ℕ) :
    process_with_polygons [] polys c = none := by
  unfold process_with_polygons
  have hz : (c - 1) / c = 0 := by
    cases c with
    | zero => simp
    | succ k => exact Nat.div_eq_of_lt (by omega)
  simp [hz]

/-- With a positive chunk size and a nonempty dataframe, chunking is
semantically invisible: the containment stage is a single pass over the
whole dataframe. -/
theorem process_with_polygons_eq (df : List Row) (polys : List Polygon) (c : ℕ)
    (hc : 0 < c) (hne : df ≠ []) :
    process_with_polygons df polys c = some (process_chunk polys df) := by
  unfold process_with_polygons
  have hlen : 1 ≤ df.length := List.length_pos.mpr hne
  have hcnt : 0 < (df.length + c - 1) / c := Nat.div_pos (by omega) hc
  have hmapne : ¬ ((List.range ((df.length + c - 1) / c)).map
      (fun k => process_chunk polys ((df.drop (k * c)).take c))).isEmpty = true := by
    simp only [List.isEmpty_iff, List.map_eq_nil_iff, List.range_eq_nil]
    omega
  rw [if_neg hmapne]
  congr 1
  conv_rhs => rw [← chunks_join c hc df.length df le_rfl]
  rw [process_chunk_join, List.map_map]
  rfl

@[simp] theorem isNumVal_null : isNumVal Val.null = false := rfl

@[simp] theorem isNumVal_num (q : ℚ) : isNumVal (Val.num q) = true := rfl

/-- A record matching no polygon yields exactly one joined row: not
parked, `Port Name` sentinel `"No"`, null `port_name`, all other columns
untouched in value. -/
theorem joinRecord_nomatch (polys : List Polygon) (r : Row)
    (h : polyMatches (getQ r "longitude", getQ r "latitude") polys = []) :
    ∃ out, joinRecord polys r = [out] ∧
      getCol out "Parked in Port" = some (Val.boolean false) ∧
      getCol out "Port Name" = some (Val.str "No") ∧
      getCol out "port_name" = some Val.null ∧
      (∀ c, c ≠ "geometry" → c ≠ "port_name" → c ≠ "index_right" →
        c ≠ "Parked in Port" → c ≠ "Port Name" → getCol out c = getCol r c) := by
  unfold joinRecord
  rw [h]
  simp only [List.map_cons, List.map_nil]
  rw [getCol_setCol_same, Option.getD_some, isNumVal_null]
  refine ⟨_, rfl, ?_, ?_, ?_, ?_⟩
  · rw [getCol_dropCol_ne _ _ _ (by decide), getCol_dropCol_ne _ _ _ (by decide),
      getCol_setCol_ne _ _ _ _ (by decide), getCol_setCol_same]
  · rw [getCol_dropCol_ne _ _ _ (by decide), getCol_dropCol_ne _ _ _ (by decide),
      getCol_setCol_same]
    simp
  · rw [getCol_dropCol_ne _ _ _ (by decide), getCol_dropCol_ne _ _ _ (by decide),
      getCol_setCol_ne _ _ _ _ (by decide), getCol_setCol_ne _ _ _ _ (by decide),
      getCol_setCol_ne _ _ _ _ (by decide), getCol_setCol_same]
  · intro c h1 h2 h3 h4 h5
    rw [getCol_dropCol_ne _ _ _ (Ne.symm h3), getCol_dropCol_ne _ _ _ (Ne.symm h1),
      getCol_setCol_ne _ _ _ _ (Ne.symm h5), getCol_setCol_ne _ _ _ _ (Ne.symm h4),
      getCol_setCol_ne _ _ _ _ (Ne.symm h3), getCol_setCol_ne _ _ _ _ (Ne.symm h2),
      getCol_setCol_ne _ _ _ _ (Ne.symm h1)]

/-- A record matching exactly one polygon yields exactly one joined row:
parked, `Port Name` = that polygon's `port_name`, all other columns
untouched in value. -/
theorem joinRecord_single (polys : List Polygon) (r : Row) (ip : ℕ × Polygon)
    (h : polyMatches (getQ r "longitude", getQ r "latitude") polys = [ip]) :
    ∃ out, joinRecord polys r = [out] ∧
      getCol out "Parked in Port" = some (Val.boolean true) ∧
      getCol out "Port Name" = some (Val.str ip.2.port_name) ∧
      getCol out "port_name" = some (Val.str ip.2.port_name) ∧
      (∀ c, c ≠ "geometry" → c ≠ "port_name" → c ≠ "index_right" →
        c ≠ "Parked in Port" → c ≠ "Port Name" → getCol out c = getCol r c) := by
  unfold joinRecord
  rw [h]
  simp only [List.map_cons, List.map_nil]
  rw [getCol_setCol_same, Option.getD_some, isNumVal_num]
  have hpn : getCol (setCol (setCol (setCol (setCol r "geometry"
      (Val.point (getQ r "longitude") (getQ r "latitude")))
      "port_name" (Val.str ip.2.port_name)) "index_right" (Val.num (ip.1 : ℚ)))
      "Parked in Port" (Val.boolean true)) "port_name" = some (Val.str ip.2.port_name) := by
    rw [getCol_setCol_ne _ _ _ _ (by decide), getCol_setCol_ne _ _ _ _ (by decide),
      getCol_setCol_same]
  refine ⟨_, rfl, ?_, ?_, ?_, ?_⟩
  · rw [getCol_dropCol_ne _ _ _ (by decide), getCol_dropCol_ne _ _ _ (by decide),
      getCol_setCol_ne _ _ _ _ (by decide), getCol_setCol_same]
  · rw [getCol_dropCol_ne _ _ _ (by decide), getCol_dropCol_ne _ _ _ (by decide),
      getCol_setCol_same]
    simp only [if_true]
    rw [hpn, Option.getD_some]
  · rw [getCol_dropCol_ne _ _ _ (by decide), getCol_dropCol_ne _ _ _ (by decide),
      getCol_setCol_ne _ _ _ _ (by decide), getCol_setCol_ne _ _ _ _ (by decide),
      getCol_setCol_ne _ _ _ _ (by decide), getCol_setCol_same]
  · intro c h1 h2 h3 h4 h5
    rw [getCol_dropCol_ne _ _ _ (Ne.symm h3), getCol_dropCol_ne _ _ _ (Ne.symm h1),
      getCol_setCol_ne _ _ _ _ (Ne.symm h5), getCol_setCol_ne _ _ _ _ (Ne.symm h4),
      getCol_setCol_ne _ _ _ _ (Ne.symm h3), getCol_setCol_ne _ _ _ _ (Ne.symm h2),
      getCol_setCol_ne _ _ _ _ (Ne.symm h1)]

/-- The five column names touched by the containment stage. -/
def joinCols : List String :=
  ["geometry", "port_name", "index_right", "Parked in Port", "Port Name"]

theorem setCol_chain5 (r : Row) (g v w b v2 : Val)
    (hfresh : ∀ c ∈ joinCols, c ∉ cols r) :
    setCol (setCol (setCol (setCol (setCol r "geometry" g) "port_name" v)
      "index_right" w) "Parked in Port" b) "Port Name" v2 =
      r ++ [("geometry", g), ("port_name", v), ("index_right", w),
        ("Parked in Port", b), ("Port Name", v2)] := by
  have heq : setCol (setCol (setCol (setCol (setCol r "geometry" g) "port_name" v)
      "index_right" w) "Parked in Port" b) "Port Name" v2 =
      ([("geometry", g), ("port_name", v), ("index_right", w),
        ("Parked in Port", b), ("Port Name", v2)] : Row).foldl
        (fun acc kv => setCol acc kv.1 kv.2) r := rfl
  rw [heq, foldl_setCol_fresh]
  · intro c hc
    exact hfresh c (by simpa [cols, joinCols] using hc)
  · have hc : cols [("geometry", g), ("port_name", v), ("index_right", w),
        ("Parked in Port", b), ("Port Name", v2)] =
        ["geometry", "port_name", "index_right", "Parked in Port", "Port Name"] := rfl
    rw [hc]
    decide

theorem dropCol_chain5 (r : Row) (g v w b v2 : Val)
    (hfresh : ∀ c ∈ joinCols, c ∉ cols r) :
    dropCol (dropCol (r ++ [("geometry", g), ("port_name", v), ("index_right", w),
        ("Parked in Port", b), ("Port Name", v2)]) "geometry") "index_right" =
      r ++ [("port_name", v), ("Parked in Port", b), ("Port Name", v2)] := by
  rw [dropCol_append, dropCol_of_not_mem r _ (hfresh _ (by decide)),
    dropCol_append, dropCol_of_not_mem r _ (hfresh _ (by decide))]
  congr 1

/-- Under the join-column freshness precondition and the at-most-one-match
precondition, one record yields exactly one joined row, which extends the
record by exactly the columns `port_name`, `Parked in Port`, `Port Name`. -/
theorem joinRecord_shape (polys : List Polygon) (r : Row)
    (hfresh : ∀ c ∈ joinCols, c ∉ cols r)
    (hm : (polyMatches (getQ r "longitude", getQ r "latitude") polys).length ≤ 1) :
    ∃ ext, joinRecord polys r = [r ++ ext] ∧
      cols ext = ["port_name", "Parked in Port", "Port Name"] := by
  unfold joinRecord
  cases hmatch : polyMatches (getQ r "longitude", getQ r "latitude") polys with
  | nil =>
      simp only [List.map_cons, List.map_nil]
      rw [setCol_chain5 r _ _ _ _ _ hfresh, dropCol_chain5 r _ _ _ _ _ hfresh]
      exact ⟨_, rfl, rfl⟩
  | cons ip tl =>
      cases tl with
      | nil =>
          simp only [List.map_cons, List.map_nil]
          rw [setCol_chain5 r _ _ _ _ _ hfresh, dropCol_chain5 r _ _ _ _ _ hfresh]
          exact ⟨_, rfl, rfl⟩
      | cons ip2 tl2 =>
          exfalso
          rw [hmatch] at hm
          simp at hm

/-- Under the same preconditions, `addProximity` on a successful query
extends the record by exactly the eight proximity columns. -/
theorem addProximity_shape (t : KDTree) (r : Row) (dp : ℚ × PortRef)
    (hq : kdQuery (getQ r "latitude", getQ r "longitude") t = some dp)
    (hfresh : ∀ c ∈ proximityCols, c ∉ cols r) :
    ∃ ext, addProximity t r = r ++ ext ∧ cols ext = proximityCols := by
  rw [addProximity_eq t r dp hq]
  by_cases h100 : 100 < dp.1
  · rw [if_pos h100, annotate_eq_append r dp hfresh,
      suppress_append r _ (hfresh _ (by decide)) (hfresh _ (by decide))
        (hfresh _ (by decide))]
    refine ⟨_, rfl, ?_⟩
    rw [cols_suppress _ (by rw [cols_proximityExt]; decide)
      (by rw [cols_proximityExt]; decide) (by rw [cols_proximityExt]; decide),
      cols_proximityExt]
  · rw [if_neg h100, annotate_eq_append r dp hfresh]
    exact ⟨_, rfl, cols_proximityExt dp⟩

/-- With at most one matching polygon per record, the containment join is
one joined row per record, in order. -/
theorem process_chunk_rowwise (polys : List Polygon) : ∀ chunk : List Row,
    (∀ r ∈ chunk,
      (polyMatches (getQ r "longitude", getQ r "latitude") polys).length ≤ 1) →
    List.Forall₂ (fun r out => joinRecord polys r = [out]) chunk
      (process_chunk polys chunk) := by
  intro chunk
  induction chunk with
  | nil => intro _; simp [process_chunk]
  | cons r rest ih =>
      intro h
      have hr := h r (List.mem_cons_self _ _)
      have hsingle : ∃ out, joinRecord polys r = [out] := by
        cases hmatch : polyMatches (getQ r "longitude", getQ r "latitude") polys with
        | nil =>
            obtain ⟨out, hout, _⟩ := joinRecord_nomatch polys r hmatch
            exact ⟨out, hout⟩
        | cons ip tl =>
            cases tl with
            | nil =>
                obtain ⟨out, hout, _⟩ := joinRecord_single polys r ip hmatch
                exact ⟨out, hout⟩
            | cons ip2 tl2 =>
                exfalso
                rw [hmatch] at hr
                simp at hr
      obtain ⟨out, hout⟩ := hsingle
      have hrest := ih (fun s hs => h s (List.mem_cons_of_mem _ hs))
      have hstep : process_chunk polys (r :: rest) =
          out :: process_chunk polys rest := by
        show (r :: rest).flatMap (joinRecord polys) = _
        rw [List.flatMap_cons, hout]
        rfl
      rw [hstep]
      exact List.Forall₂.cons hout hrest

/-! ### Ingestion and cleaning (`load_and_clean_data`)

The bodies of `remove_NA`, `remove_invalid_lat_and_lon` and
`remove_invalid_speed` live in the repository's `data_cleaning` module,
which is not part of this source tree; only their call sites and order are.
They are modelled from the spec below.  `drop_duplicates()` is the pandas
keep-first duplicate removal. -/

/-- Modelled from the spec: `remove_NA` of the missing `data_cleaning`
module — null-removal discards every record with a missing field. -/
def remove_NA (df : List Row) : List Row :=
  df.filter (fun r => ! r.any (fun kv => decide (kv.2 = Val.null)))

/-- Modelled from the spec: `remove_invalid_lat_and_lon` of the missing
`data_cleaning` module — keeps records whose latitude and longitude lie
within valid geographic bounds. -/
def remove_invalid_lat_and_lon (df : List Row) : List Row :=
  df.filter (fun r => decide (-90 ≤ getQ r "latitude" ∧ getQ r "latitude" ≤ 90 ∧
    -180 ≤ getQ r "longitude" ∧ getQ r "longitude" ≤ 180))

/-- Modelled from the spec: `remove_invalid_speed` of the missing
`data_cleaning` module — keeps records whose speed lies within a valid
range; the bounds are configuration of the missing module, taken here as
parameters. -/
def remove_invalid_speed (lo hi : ℚ) (df : List Row) : List Row :=
  df.filter (fun r => decide (lo ≤ getQ r "speed" ∧ getQ r "speed" ≤ hi))

/-- pandas `DataFrame.drop_duplicates()`: remove exact duplicate rows,
keeping the first occurrence of each. -/
def dropDuplicates : List Row → List Row
  | [] => []
  | r :: rest => r :: dropDuplicates (rest.filter (fun s => decide (s ≠ r)))
termination_by l => l.length
decreasing_by
  simp only [List.length_cons]
  exact Nat.lt_succ_of_le (List.length_filter_le _ _)

/-- `load_and_clean_data`, after the raw parquet load: the four cleaning
steps, in source order. -/
def load_and_clean_data (lo hi : ℚ) (raw : List Row) : List Row :=
  dropDuplicates (remove_invalid_speed lo hi (remove_invalid_lat_and_lon (remove_NA raw)))

theorem mem_dropDuplicates : ∀ (n : ℕ) (l : List Row), l.length ≤ n →
    ∀ r ∈ dropDuplicates l, r ∈ l := by
  intro n
  induction n with
  | zero =>
      intro l hl
      have hnil : l = [] := List.length_eq_zero.mp (Nat.le_zero.mp hl)
      subst hnil
      intro r hr
      simp [dropDuplicates] at hr
  | succ n ih =>
      intro l hl
      cases l with
      | nil => intro r hr; simp [dropDuplicates] at hr
      | cons x xs =>
          intro r hr
          rw [show dropDuplicates (x :: xs) =
            x :: dropDuplicates (xs.filter (fun s => decide (s ≠ x))) from by
              rw [dropDuplicates]] at hr
          rcases List.mem_cons.mp hr with h | h
          · exact h ▸ List.mem_cons_self _ _
          · have hlen : (xs.filter (fun s => decide (s ≠ x))).length ≤ n :=
              le_trans (List.length_filter_le _ _) (Nat.le_of_succ_le_succ hl)
            have := ih _ hlen r h
            exact List.mem_cons_of_mem _ (List.mem_of_mem_filter this)

/-- `drop_duplicates` leaves no two identical rows. -/
theorem dropDuplicates_nodup : ∀ (n : ℕ) (l : List Row), l.length ≤ n →
    (dropDuplicates l).Nodup := by
  intro n
  induction n with
  | zero =>
      intro l hl
      have hnil : l = [] := List.length_eq_zero.mp (Nat.le_zero.mp hl)
      subst hnil
      simp [dropDuplicates]
  | succ n ih =>
      intro l hl
      cases l with
      | nil => simp [dropDuplicates]
      | cons x xs =>
          rw [show dropDuplicates (x :: xs) =
            x :: dropDuplicates (xs.filter (fun s => decide (s ≠ x))) from by
              rw [dropDuplicates]]
          have hlen : (xs.filter (fun s => decide (s ≠ x))).length ≤ n :=
            le_trans (List.length_filter_le _ _) (Nat.le_of_succ_le_succ hl)
          refine List.nodup_cons.mpr ⟨?_, ih _ hlen⟩
          intro hmem
          have hf := mem_dropDuplicates _ _ le_rfl x hmem
          have := List.of_mem_filter hf
          simp at this

/-! ### Shared evaluation lemmas for the claims -/

theorem leFlag_yes_iff (d t : ℚ) : leFlag d t = Val.str "Yes" ↔ d ≤ t ^ 2 := by
  unfold leFlag
  by_cases h : d ≤ t ^ 2
  · rw [if_pos h]
    exact ⟨fun _ => h, fun _ => rfl⟩
  · rw [if_neg h]
    constructor
    · intro he
      exact absurd he (by decide)
    · intro hd
      exact absurd hd h

theorem leFlag_no_iff (d t : ℚ) : leFlag d t = Val.str "No" ↔ ¬ d ≤ t ^ 2 := by
  unfold leFlag
  by_cases h : d ≤ t ^ 2
  · rw [if_pos h]
    constructor
    · intro he
      exact absurd he (by decide)
    · intro hd
      exact absurd h hd
  · rw [if_neg h]
    exact ⟨fun _ => h, fun _ => rfl⟩

/-- The distance column of an annotated row is the raw query distance; the
suppression rule never touches it. -/
theorem addProximity_dist (t : KDTree) (r : Row) (dp : ℚ × PortRef)
    (hq : kdQuery (getQ r "latitude", getQ r "longitude") t = some dp) :
    getCol (addProximity t r) "Distance to Nearest Port" = some (Val.num dp.1) := by
  rw [addProximity_eq t r dp hq]
  by_cases h : 100 < dp.1
  · rw [if_pos h,
      suppress_other _ _ (by decide) (by decide) (by decide), annotate_dist]
  · rw [if_neg h, annotate_dist]

/-- The four flag columns of an annotated row. -/
theorem addProximity_flags (t : KDTree) (r : Row) (dp : ℚ × PortRef)
    (hq : kdQuery (getQ r "latitude", getQ r "longitude") t = some dp) :
    getCol (addProximity t r) "Less than 1 km from port" = some (leFlag dp.1 1) ∧
    getCol (addProximity t r) "Less than 3 km from port" = some (leFlag dp.1 3) ∧
    getCol (addProximity t r) "Less than 5 km from port" = some (leFlag dp.1 5) ∧
    getCol (addProximity t r) "Less than 10 km from port" = some (leFlag dp.1 10) := by
  rw [addProximity_eq t r dp hq]
  by_cases h : 100 < dp.1
  · rw [if_pos h,
      suppress_other _ _ (by decide) (by decide) (by decide),
      suppress_other _ _ (by decide) (by decide) (by decide),
      suppress_other _ _ (by decide) (by decide) (by decide),
      suppress_other _ _ (by decide) (by decide) (by decide),
      annotate_flag1, annotate_flag3, annotate_flag5, annotate_flag10]
    exact ⟨rfl, rfl, rfl, rfl⟩
  · rw [if_neg h, annotate_flag1, annotate_flag3, annotate_flag5, annotate_flag10]
    exact ⟨rfl, rfl, rfl, rfl⟩

/-- The identity columns of an annotated row: suppressed to the sentinel
exactly when the squared distance exceeds the largest squared threshold. -/
theorem addProximity_identity (t : KDTree) (r : Row) (dp : ℚ × PortRef)
    (hq : kdQuery (getQ r "latitude", getQ r "longitude") t = some dp) :
    (100 < dp.1 →
      getCol (addProximity t r) "Proximity Port Name" = some (Val.str "No") ∧
      getCol (addProximity t r) "Port Latitude" = some Val.null ∧
      getCol (addProximity t r) "Port Longitude" = some Val.null) ∧
    (¬ 100 < dp.1 →
      getCol (addProximity t r) "Proximity Port Name" =
        some (Val.str dp.2.MainPortName) ∧
      getCol (addProximity t r) "Port Latitude" = some (Val.num dp.2.Latitude) ∧
      getCol (addProximity t r) "Port Longitude" = some (Val.num dp.2.Longitude)) := by
  rw [addProximity_eq t r dp hq]
  constructor
  · intro h
    rw [if_pos h]
    exact ⟨suppress_ppn _, suppress_plat _, suppress_plon _⟩
  · intro h
    rw [if_neg h]
    exact ⟨annotate_ppn r dp, annotate_plat r dp, annotate_plon r dp⟩

theorem getCol_append_not_right (r s : Row) (c : String) (h : c ∉ cols s) :
    getCol (r ++ s) c = getCol r c := by
  by_cases hr : c ∈ cols r
  · exact getCol_append_left r s c hr
  · rw [getCol_append_right r s c hr, getCol_eq_none_of_not_mem s c h,
      getCol_eq_none_of_not_mem r c hr]

theorem getQ_append_not_right (r s : Row) (c : String) (h : c ∉ cols s) :
    getQ (r ++ s) c = getQ r c := by
  unfold getQ
  rw [getCol_append_not_right r s c h]

theorem getCol_append_pres (r ext : Row) (c : String) (v : Val)
    (h : getCol r c = some v) : getCol (r ++ ext) c = some v := by
  have hmem : c ∈ cols r := (getCol_isSome_iff r c).mp (by rw [h]; rfl)
  rw [getCol_append_left r ext c hmem]
  exact h

theorem forall₂_compose {α β γ : Type} {R1 : α → β → Prop} {R2 : β → γ → Prop}
    {R3 : α → γ → Prop} (h : ∀ a b c, R1 a b → R2 b c → R3 a c) :
    ∀ {l1 : List α} {l2 : List β} {l3 : List γ},
      List.Forall₂ R1 l1 l2 → List.Forall₂ R2 l2 l3 → List.Forall₂ R3 l1 l3 := by
  intro l1 l2 l3 h12
  induction h12 generalizing l3 with
  | nil =>
      intro h23
      cases h23
      constructor
  | cons hab h12t ih =>
      intro h23
      cases h23 with
      | cons hbc h23t => exact List.Forall₂.cons (h _ _ _ hab hbc) (ih h23t)

theorem forall₂_map_mem {α β : Type} (f : α → β) (l : List α) :
    List.Forall₂ (fun a b => a ∈ l ∧ b = f a) l (l.map f) := by
  have haux : ∀ l' : List α, (∀ a ∈ l', a ∈ l) →
      List.Forall₂ (fun a b => a ∈ l ∧ b = f a) l' (l'.map f) := by
    intro l'
    induction l' with
    | nil => intro _; constructor
    | cons x xs ih =>
        intro hsub
        exact List.Forall₂.cons ⟨hsub x (List.mem_cons_self _ _), rfl⟩
          (ih fun a ha => hsub a (List.mem_cons_of_mem _ ha))
  exact haux l (fun a ha => ha)

theorem forall₂_getElem? {α β : Type} {R : α → β → Prop} {l1 : List α} {l2 : List β}
    (h : List.Forall₂ R l1 l2) (i : ℕ) (a : α) (b : β)
    (h1 : l1[i]? = some a) (h2 : l2[i]? = some b) : R a b := by
  obtain ⟨hi1, he1⟩ := List.getElem?_eq_some_iff.mp h1
  obtain ⟨hi2, he2⟩ := List.getElem?_eq_some_iff.mp h2
  have hg := (List.forall₂_iff_get.mp h).2 i hi1 hi2
  rw [List.get_eq_getElem, List.get_eq_getElem, he1, he2] at hg
  exact hg

theorem polyMatches_aux (pt : ℚ × ℚ) : ∀ (polys : List Polygon) (k : ℕ),
    ((polys.enumFrom k).filter (fun ip => within pt ip.2)).map Prod.snd =
      polys.filter (fun pl => within pt pl) := by
  intro polys
  induction polys with
  | nil => intro k; rfl
  | cons p ps ih =>
      intro k
      rw [List.enumFrom]
      by_cases h : within pt p = true
      · rw [List.filter_cons_of_pos (by simpa using h), List.map_cons, ih,
          List.filter_cons_of_pos (by simpa using h)]
      · rw [List.filter_cons_of_neg (by simpa using h), ih,
          List.filter_cons_of_neg (by simpa using h)]

theorem polyMatches_map_snd (pt : ℚ × ℚ) (polys : List Polygon) :
    (polyMatches pt polys).map Prod.snd = polys.filter (fun pl => within pt pl) := by
  unfold polyMatches
  rw [show polys.enum = polys.enumFrom 0 from rfl]
  exact polyMatches_aux pt polys 0

theorem polyMatches_length (pt : ℚ × ℚ) (polys : List Polygon) :
    (polyMatches pt polys).length = (polys.filter (fun pl => within pt pl)).length := by
  rw [← polyMatches_map_snd pt polys, List.length_map]

theorem polyMatches_nil_iff (pt : ℚ × ℚ) (polys : List Polygon) :
    polyMatches pt polys = [] ↔ ∀ pl ∈ polys, ¬ within pt pl = true := by
  constructor
  · intro h pl hpl hw
    have hf : pl ∈ polys.filter (fun pl => within pt pl) :=
      List.mem_filter.mpr ⟨hpl, by simpa using hw⟩
    rw [← polyMatches_map_snd pt polys, h] at hf
    cases hf
  · intro h
    have hf : polys.filter (fun pl => within pt pl) = [] := by
      rw [List.filter_eq_nil_iff]
      intro pl hpl
      simpa using h pl hpl
    have hlen := polyMatches_length pt polys
    rw [hf] at hlen
    exact List.length_eq_zero.mp hlen

theorem polyMatches_single (pt : ℚ × ℚ) (polys : List Polygon) (ip : ℕ × Polygon)
    (h : polyMatches pt polys = [ip]) :
    ip.2 ∈ polys ∧ within pt ip.2 = true ∧
      ∀ pl ∈ polys, within pt pl = true → pl = ip.2 := by
  have hm := polyMatches_map_snd pt polys
  rw [h] at hm
  have hmem : ip.2 ∈ polys.filter (fun pl => within pt pl) := by
    rw [← hm]
    exact List.mem_cons_self _ _
  refine ⟨(List.mem_filter.mp hmem).1, by simpa using (List.mem_filter.mp hmem).2, ?_⟩
  intro pl hpl hw
  have hplf : pl ∈ polys.filter (fun pl => within pt pl) :=
    List.mem_filter.mpr ⟨hpl, by simpa using hw⟩
  rw [← hm] at hplf
  simpa using hplf

/-- Row `i` of `create_proximity_columns` is `addProximity` of row `i`. -/
theorem create_out_eq (df : List Row) (ports : List PortRef) (i : ℕ) (r out : Row)
    (hr : df[i]? = some r)
    (hout : (create_proximity_columns df ports)[i]? = some out) :
    out = addProximity (build false ports) r := by
  unfold create_proximity_columns at hout
  rw [List.getElem?_map, hr] at hout
  exact (Option.some_inj.mp hout).symm

/-- Both annotation stages compose row-wise: row `i` of the final result
is row `i` of the input extended first by the eight proximity columns and
then by the three containment columns. -/
theorem pipeline_rowwise (df : List Row) (ports : List PortRef) (polys : List Polygon)
    (hp : ports ≠ [])
    (hfresh : ∀ r ∈ df, ∀ c ∈ proximityCols ++ joinCols, c ∉ cols r)
    (hm : ∀ r ∈ df,
      (polyMatches (getQ r "longitude", getQ r "latitude") polys).length ≤ 1) :
    List.Forall₂ (fun r out => ∃ ext8 ext3,
        addProximity (build false ports) r = r ++ ext8 ∧ cols ext8 = proximityCols ∧
        out = (r ++ ext8) ++ ext3 ∧
        cols ext3 = ["port_name", "Parked in Port", "Port Name"])
      df (process_chunk polys (create_proximity_columns df ports)) := by
  have h12 := forall₂_map_mem (addProximity (build false ports)) df
  have hshape : ∀ r ∈ df, ∃ ext8,
      addProximity (build false ports) r = r ++ ext8 ∧ cols ext8 = proximityCols := by
    intro r hr
    obtain ⟨d, b, hq, _, _, _⟩ :=
      kdQuery_spec (getQ r "latitude", getQ r "longitude") false ports hp
    exact addProximity_shape _ r (d, b) hq
      (fun c hc => hfresh r hr c (List.mem_append_left _ hc))
  have hm2 : ∀ r2 ∈ create_proximity_columns df ports,
      (polyMatches (getQ r2 "longitude", getQ r2 "latitude") polys).length ≤ 1 := by
    intro r2 hr2
    obtain ⟨r, hr, hfr⟩ := List.mem_map.mp hr2
    obtain ⟨ext8, he, hcc⟩ := hshape r hr
    rw [← hfr, he, getQ_append_not_right _ _ _ (by rw [hcc]; decide),
      getQ_append_not_right _ _ _ (by rw [hcc]; decide)]
    exact hm r hr
  have h23 := process_chunk_rowwise polys (create_proximity_columns df ports) hm2
  refine forall₂_compose ?_ h12 h23
  intro r r2 out hab hbc
  obtain ⟨hrdf, hr2⟩ := hab
  obtain ⟨ext8, he8, hc8⟩ := hshape r hrdf
  rw [hr2, he8] at hbc
  have hfresh2 : ∀ c ∈ joinCols, c ∉ cols (r ++ ext8) := by
    intro c hc
    rw [cols_append, List.mem_append, hc8]
    rintro (hmem | hmem)
    · exact hfresh r hrdf c (List.mem_append_right _ hc) hmem
    · have hdj : ∀ c ∈ joinCols, c ∉ proximityCols := by decide
      exact hdj c hc hmem
  have hm3 : (polyMatches (getQ (r ++ ext8) "longitude",
      getQ (r ++ ext8) "latitude") polys).length ≤ 1 := by
    rw [getQ_append_not_right _ _ _ (by rw [hc8]; decide),
      getQ_append_not_right _ _ _ (by rw [hc8]; decide)]
    exact hm r hrdf
  obtain ⟨ext3, hj, hc3⟩ := joinRecord_shape polys (r ++ ext8) hfresh2 hm3
  rw [hj] at hbc
  injection hbc with h1 h2
  exact ⟨ext8, ext3, he8, hc8, h1.symm, hc3⟩

/-- Flag columns of row `i` of `create_proximity_columns`, as iffs against
the squared thresholds. -/
theorem create_flags_yes_iff (df : List Row) (ports : List PortRef) (i : ℕ)
    (r out : Row) (hr : df[i]? = some r)
    (hout : (create_proximity_columns df ports)[i]? = some out)
    (d : ℚ) (b : PortRef)
    (hq : kdQuery (getQ r "latitude", getQ r "longitude") (build false ports) =
      some (d, b)) :
    (getCol out "Less than 1 km from port" = some (Val.str "Yes") ↔ d ≤ 1 ^ 2) ∧
    (getCol out "Less than 3 km from port" = some (Val.str "Yes") ↔ d ≤ 3 ^ 2) ∧
    (getCol out "Less than 5 km from port" = some (Val.str "Yes") ↔ d ≤ 5 ^ 2) ∧
    (getCol out "Less than 10 km from port" = some (Val.str "Yes") ↔ d ≤ 10 ^ 2) := by
  have hout2 := create_out_eq df ports i r out hr hout
  obtain ⟨h1, h3, h5, h10⟩ := addProximity_flags (build false ports) r (d, b) hq
  subst hout2
  rw [h1, h3, h5, h10]
  rw [Option.some_inj, Option.some_inj, Option.some_inj, Option.some_inj]
  exact ⟨leFlag_yes_iff d 1, leFlag_yes_iff d 3, leFlag_yes_iff d 5, leFlag_yes_iff d 10⟩

/-! ### Concrete fixtures used by witnesses and counterexamples -/

/-- A cleaned vessel record at latitude 2, longitude 2, speed 5. -/
def rowA : Row := [("latitude", Val.num 2), ("longitude", Val.num 2), ("speed", Val.num 5)]

def dfA : List Row := [rowA]

/-- Two ports: from `rowA` the squared distances are 5 (Alpha) and 1 (Beta). -/
def portsA : List PortRef := [⟨"Alpha", 3, 4⟩, ⟨"Beta", 2, 3⟩]

/-- One square port polygon containing the point `(lon, lat) = (2, 2)`
strictly. -/
def polysA : List Polygon := [⟨"Limassol", [(0, 0), (4, 0), (4, 4), (0, 4)]⟩]

/-- A record whose nearest port lies at distance exactly 1 (squared
distance 1): on the boundary of the 1 km threshold. -/
def rowB : Row := [("latitude", Val.num 0), ("longitude", Val.num 0)]

def dfB : List Row := [rowB]

def portsB : List PortRef := [⟨"Paphos", 0, 1⟩]

/-! ### The claims -/

/-- C1: for every cleaned record, the value written to
`Distance to Nearest Port` is the minimum over all port reference
coordinates of the Euclidean distance from the record's
`(latitude, longitude)` pair, in the raw coordinate plane: the k-d tree
query agrees with the brute-force minimum.  Distances are represented by
their squares (ℚ-valued); since squaring is strictly monotone on
nonnegatives, the minimal squared distance is the square of the minimal
Euclidean distance, and the same port attains both. -/
theorem C1_distance_is_brute_min (df : List Row) (ports : List PortRef)
    (hp : ports ≠ []) (i : ℕ) (r out : Row) (hr : df[i]? = some r)
    (hout : (create_proximity_columns df ports)[i]? = some out) :
    ∃ d : ℚ, getCol out "Distance to Nearest Port" = some (Val.num d) ∧
      bruteMinDistSq (getQ r "latitude", getQ r "longitude") ports = some d := by
  have hout2 := create_out_eq df ports i r out hr hout
  obtain ⟨d, b, hq, hd, hmem, hlb⟩ :=
    kdQuery_spec (getQ r "latitude", getQ r "longitude") false ports hp
  refine ⟨d, ?_, ?_⟩
  · rw [hout2]
    exact addProximity_dist _ r (d, b) hq
  · have hb := kdQuery_fst_eq_brute (getQ r "latitude", getQ r "longitude") false ports
    rw [hq] at hb
    simp only [Option.map_some'] at hb
    exact hb.symm

theorem C1_distance_is_brute_min_witness :
    ∃ d : ℚ, getCol (addProximity (build false portsA) rowA)
        "Distance to Nearest Port" = some (Val.num d) ∧
      bruteMinDistSq (getQ rowA "latitude", getQ rowA "longitude") portsA = some d :=
  C1_distance_is_brute_min dfA portsA (by decide) 0 rowA
    (addProximity (build false portsA) rowA) rfl rfl

/-- C3 counterexample: a record whose raw distance to the nearest port is
exactly 1 (squared distance 1 = 1 ^ 2) is flagged `"Yes"` by the code
(which compares with `<=`), while the claim's strict `<` comparison fails
at this input — so the flag is not `yes` exactly when the distance is
strictly below the threshold. -/
theorem C3_counterexample_boundary_flag :
    getCol ((create_proximity_columns dfB portsB).headI)
        "Distance to Nearest Port" = some (Val.num 1) ∧
    getCol ((create_proximity_columns dfB portsB).headI)
        "Less than 1 km from port" = some (Val.str "Yes") ∧
    ¬ ((1 : ℚ) < 1 ^ 2) := by with_unfolding_all decide

/-- C3 (amended): for every record, each threshold flag
`Less than X km from port` is `"Yes"` exactly when the raw distance is
less than **or equal to** X — `d` below is the squared distance and
`X ^ 2` the squared threshold. -/
theorem C3_flags_le_threshold (df : List Row) (ports : List PortRef) (i : ℕ)
    (r out : Row) (hr : df[i]? = some r)
    (hout : (create_proximity_columns df ports)[i]? = some out)
    (d : ℚ) (b : PortRef)
    (hq : kdQuery (getQ r "latitude", getQ r "longitude") (build false ports) =
      some (d, b)) :
    (getCol out "Less than 1 km from port" = some (Val.str "Yes") ↔ d ≤ 1 ^ 2) ∧
    (getCol out "Less than 3 km from port" = some (Val.str "Yes") ↔ d ≤ 3 ^ 2) ∧
    (getCol out "Less than 5 km from port" = some (Val.str "Yes") ↔ d ≤ 5 ^ 2) ∧
    (getCol out "Less than 10 km from port" = some (Val.str "Yes") ↔ d ≤ 10 ^ 2) :=
  create_flags_yes_iff df ports i r out hr hout d b hq

theorem C3_flags_le_threshold_witness :
    (getCol (addProximity (build false portsA) rowA)
        "Less than 1 km from port" = some (Val.str "Yes") ↔ (1 : ℚ) ≤ 1 ^ 2) ∧
    (getCol (addProximity (build false portsA) rowA)
        "Less than 3 km from port" = some (Val.str "Yes") ↔ (1 : ℚ) ≤ 3 ^ 2) ∧
    (getCol (addProximity (build false portsA) rowA)
        "Less than 5 km from port" = some (Val.str "Yes") ↔ (1 : ℚ) ≤ 5 ^ 2) ∧
    (getCol (addProximity (build false portsA) rowA)
        "Less than 10 km from port" = some (Val.str "Yes") ↔ (1 : ℚ) ≤ 10 ^ 2) :=
  C3_flags_le_threshold dfA portsA 0 rowA
    (addProximity (build false portsA) rowA) rfl rfl 1 ⟨"Beta", 2, 3⟩ (by with_unfolding_all decide)

/-- C4: when a record's four threshold flags all read `"No"`, the
nearest-port attribution is suppressed — `Proximity Port Name` becomes the
sentinel `"No"` and the port coordinates become null — while the
`Distance to Nearest Port` value stays exactly the computed query
distance; when at least one flag reads `"Yes"`, the nearest port's name
and coordinates are kept unchanged (and the distance again stays as
computed). -/
theorem C4_sentinel_suppression (df : List Row) (ports : List PortRef) (i : ℕ)
    (r out : Row) (hr : df[i]? = some r)
    (hout : (create_proximity_columns df ports)[i]? = some out)
    (d : ℚ) (b : PortRef)
    (hq : kdQuery (getQ r "latitude", getQ r "longitude") (build false ports) =
      some (d, b)) :
    ((getCol out "Less than 1 km from port" = some (Val.str "No") ∧
      getCol out "Less than 3 km from port" = some (Val.str "No") ∧
      getCol out "Less than 5 km from port" = some (Val.str "No") ∧
      getCol out "Less than 10 km from port" = some (Val.str "No")) →
      getCol out "Proximity Port Name" = some (Val.str "No") ∧
      getCol out "Port Latitude" = some Val.null ∧
      getCol out "Port Longitude" = some Val.null ∧
      getCol out "Distance to Nearest Port" = some (Val.num d)) ∧
    ((getCol out "Less than 1 km from port" = some (Val.str "Yes") ∨
      getCol out "Less than 3 km from port" = some (Val.str "Yes") ∨
      getCol out "Less than 5 km from port" = some (Val.str "Yes") ∨
      getCol out "Less than 10 km from port" = some (Val.str "Yes")) →
      getCol out "Proximity Port Name" = some (Val.str b.MainPortName) ∧
      getCol out "Port Latitude" = some (Val.num b.Latitude) ∧
      getCol out "Port Longitude" = some (Val.num b.Longitude) ∧
      getCol out "Distance to Nearest Port" = some (Val.num d)) := by
  have hout2 := create_out_eq df ports i r out hr hout
  subst hout2
  obtain ⟨h1, h3, h5, h10⟩ := addProximity_flags (build false ports) r (d, b) hq
  have hdist := addProximity_dist (build false ports) r (d, b) hq
  obtain ⟨hsup, hkeep⟩ := addProximity_identity (build false ports) r (d, b) hq
  constructor
  · intro hno
    have h100 : 100 < d := by
      have := hno.2.2.2
      rw [h10, Option.some_inj] at this
      have hn := (leFlag_no_iff d 10).mp this
      norm_num at hn
      exact hn
    obtain ⟨ha, hb2, hc2⟩ := hsup h100
    exact ⟨ha, hb2, hc2, hdist⟩
  · intro hyes
    have hle : d ≤ 100 := by
      rcases hyes with h | h | h | h
      · rw [h1, Option.some_inj] at h
        have := (leFlag_yes_iff d 1).mp h
        norm_num at this ⊢
        linarith
      · rw [h3, Option.some_inj] at h
        have := (leFlag_yes_iff d 3).mp h
        norm_num at this ⊢
        linarith
      · rw [h5, Option.some_inj] at h
        have := (leFlag_yes_iff d 5).mp h
        norm_num at this ⊢
        linarith
      · rw [h10, Option.some_inj] at h
        have := (leFlag_yes_iff d 10).mp h
        norm_num at this ⊢
        linarith
    obtain ⟨ha, hb2, hc2⟩ := hkeep (not_lt.mpr hle)
    exact ⟨ha, hb2, hc2, hdist⟩

theorem C4_sentinel_suppression_witness :
    ((getCol (addProximity (build false portsA) rowA)
        "Less than 1 km from port" = some (Val.str "No") ∧
      getCol (addProximity (build false portsA) rowA)
        "Less than 3 km from port" = some (Val.str "No") ∧
      getCol (addProximity (build false portsA) rowA)
        "Less than 5 km from port" = some (Val.str "No") ∧
      getCol (addProximity (build false portsA) rowA)
        "Less than 10 km from port" = some (Val.str "No")) →
      getCol (addProximity (build false portsA) rowA)
        "Proximity Port Name" = some (Val.str "No") ∧
      getCol (addProximity (build false portsA) rowA)
        "Port Latitude" = some Val.null ∧
      getCol (addProximity (build false portsA) rowA)
        "Port Longitude" = some Val.null ∧
      getCol (addProximity (build false portsA) rowA)
        "Distance to Nearest Port" = some (Val.num 1)) ∧
    ((getCol (addProximity (build false portsA) rowA)
        "Less than 1 km from port" = some (Val.str "Yes") ∨
      getCol (addProximity (build false portsA) rowA)
        "Less than 3 km from port" = some (Val.str "Yes") ∨
      getCol (addProximity (build false portsA) rowA)
        "Less than 5 km from port" = some (Val.str "Yes") ∨
      getCol (addProximity (build false portsA) rowA)
        "Less than 10 km from port" = some (Val.str "Yes")) →
      getCol (addProximity (build false portsA) rowA)
        "Proximity Port Name" = some (Val.str (PortRef.mk "Beta" 2 3).MainPortName) ∧
      getCol (addProximity (build false portsA) rowA)
        "Port Latitude" = some (Val.num (PortRef.mk "Beta" 2 3).Latitude) ∧
      getCol (addProximity (build false portsA) rowA)
        "Port Longitude" = some (Val.num (PortRef.mk "Beta" 2 3).Longitude) ∧
      getCol (addProximity (build false portsA) rowA)
        "Distance to Nearest Port" = some (Val.num 1)) :=
  C4_sentinel_suppression dfA portsA 0 rowA
    (addProximity (build false portsA) rowA) rfl rfl 1 ⟨"Beta", 2, 3⟩ (by with_unfolding_all decide)

/-- C7: the threshold flags are monotone in the nested thresholds — a
`"Yes"` at a smaller threshold forces `"Yes"` at every larger one. -/
theorem C7_flag_monotonicity (df : List Row) (ports : List PortRef) (i : ℕ)
    (r out : Row) (hr : df[i]? = some r)
    (hout : (create_proximity_columns df ports)[i]? = some out)
    (d : ℚ) (b : PortRef)
    (hq : kdQuery (getQ r "latitude", getQ r "longitude") (build false ports) =
      some (d, b)) :
    (getCol out "Less than 1 km from port" = some (Val.str "Yes") →
      getCol out "Less than 3 km from port" = some (Val.str "Yes") ∧
      getCol out "Less than 5 km from port" = some (Val.str "Yes") ∧
      getCol out "Less than 10 km from port" = some (Val.str "Yes")) ∧
    (getCol out "Less than 3 km from port" = some (Val.str "Yes") →
      getCol out "Less than 5 km from port" = some (Val.str "Yes") ∧
      getCol out "Less than 10 km from port" = some (Val.str "Yes")) ∧
    (getCol out "Less than 5 km from port" = some (Val.str "Yes") →
      getCol out "Less than 10 km from port" = some (Val.str "Yes")) := by
  obtain ⟨i1, i3, i5, i10⟩ := create_flags_yes_iff df ports i r out hr hout d b hq
  refine ⟨?_, ?_, ?_⟩
  · intro h
    have hd := i1.mp h
    norm_num at hd
    exact ⟨i3.mpr (by norm_num; linarith), i5.mpr (by norm_num; linarith),
      i10.mpr (by norm_num; linarith)⟩
  · intro h
    have hd := i3.mp h
    norm_num at hd
    exact ⟨i5.mpr (by norm_num; linarith), i10.mpr (by norm_num; linarith)⟩
  · intro h
    have hd := i5.mp h
    norm_num at hd
    exact i10.mpr (by norm_num; linarith)

theorem C7_flag_monotonicity_witness :
    (getCol (addProximity (build false portsA) rowA)
        "Less than 1 km from port" = some (Val.str "Yes") →
      getCol (addProximity (build false portsA) rowA)
        "Less than 3 km from port" = some (Val.str "Yes") ∧
      getCol (addProximity (build false portsA) rowA)
        "Less than 5 km from port" = some (Val.str "Yes") ∧
      getCol (addProximity (build false portsA) rowA)
        "Less than 10 km from port" = some (Val.str "Yes")) ∧
    (getCol (addProximity (build false portsA) rowA)
        "Less than 3 km from port" = some (Val.str "Yes") →
      getCol (addProximity (build false portsA) rowA)
        "Less than 5 km from port" = some (Val.str "Yes") ∧
      getCol (addProximity (build false portsA) rowA)
        "Less than 10 km from port" = some (Val.str "Yes")) ∧
    (getCol (addProximity (build false portsA) rowA)
        "Less than 5 km from port" = some (Val.str "Yes") →
      getCol (addProximity (build false portsA) rowA)
        "Less than 10 km from port" = some (Val.str "Yes")) :=
  C7_flag_monotonicity dfA portsA 0 rowA
    (addProximity (build false portsA) rowA) rfl rfl 1 ⟨"Beta", 2, 3⟩ (by with_unfolding_all decide)

/-- A polygon reference set is non-overlapping when no point lies within
two of its polygons. -/
def NonOverlapping (polys : List Polygon) : Prop :=
  ∀ pt : ℚ × ℚ, (polys.filter (fun pl => within pt pl)).length ≤ 1

/-- C5: with a non-overlapping polygon reference set, a record's
`Parked in Port` is true exactly when its `(longitude, latitude)` point
lies strictly within some reference polygon; in that case `Port Name`
names the (unique) containing polygon, and an unmatched record gets the
sentinel `"No"`. -/
theorem C5_parked_iff_within (polys : List Polygon) (chunk : List Row)
    (hno : NonOverlapping polys) (i : ℕ) (r out : Row)
    (hr : chunk[i]? = some r)
    (hout : (process_chunk polys chunk)[i]? = some out) :
    ((getCol out "Parked in Port" = some (Val.boolean true)) ↔
      ∃ pl ∈ polys, within (getQ r "longitude", getQ r "latitude") pl = true) ∧
    (∀ pl ∈ polys, within (getQ r "longitude", getQ r "latitude") pl = true →
      getCol out "Port Name" = some (Val.str pl.port_name)) ∧
    ((∀ pl ∈ polys, ¬ within (getQ r "longitude", getQ r "latitude") pl = true) →
      getCol out "Port Name" = some (Val.str "No")) := by
  have hm : ∀ s ∈ chunk,
      (polyMatches (getQ s "longitude", getQ s "latitude") polys).length ≤ 1 := by
    intro s _
    rw [polyMatches_length]
    exact hno _
  have hrow := process_chunk_rowwise polys chunk hm
  have hrel := forall₂_getElem? hrow i r out hr hout
  cases hmatch : polyMatches (getQ r "longitude", getQ r "latitude") polys with
  | nil =>
      obtain ⟨out0, hj, hparked, hpname, _, _⟩ := joinRecord_nomatch polys r hmatch
      rw [hrel] at hj
      injection hj with h1 h2
      subst h1
      refine ⟨⟨?_, ?_⟩, ?_, ?_⟩
      · intro hp
        rw [hparked] at hp
        exact absurd hp (by decide)
      · rintro ⟨pl, hpl, hw⟩
        exact absurd hw
          ((polyMatches_nil_iff (getQ r "longitude", getQ r "latitude") polys).mp
            hmatch pl hpl)
      · intro pl hpl hw
        exact absurd hw
          ((polyMatches_nil_iff (getQ r "longitude", getQ r "latitude") polys).mp
            hmatch pl hpl)
      · intro _
        exact hpname
  | cons ip tl =>
      cases tl with
      | nil =>
          obtain ⟨out0, hj, hparked, hpname, _, _⟩ := joinRecord_single polys r ip hmatch
          rw [hrel] at hj
          injection hj with h1 h2
          subst h1
          obtain ⟨hmem2, hw2, huniq⟩ :=
            polyMatches_single (getQ r "longitude", getQ r "latitude") polys ip hmatch
          refine ⟨⟨fun _ => ⟨ip.2, hmem2, hw2⟩, fun _ => hparked⟩, ?_, ?_⟩
          · intro pl hpl hw
            rw [huniq pl hpl hw]
            exact hpname
          · intro hnone
            exact absurd hw2 (hnone ip.2 hmem2)
      | cons ip2 tl2 =>
          exfalso
          obtain ⟨hi, he⟩ := List.getElem?_eq_some_iff.mp hr
          have hrc : r ∈ chunk := he ▸ List.getElem_mem hi
          have hb := hm r hrc
          rw [hmatch] at hb
          simp at hb

theorem C5_parked_iff_within_witness :
    ((getCol ((process_chunk polysA dfA).headI) "Parked in Port" =
        some (Val.boolean true)) ↔
      ∃ pl ∈ polysA, within (getQ rowA "longitude", getQ rowA "latitude") pl = true) ∧
    (∀ pl ∈ polysA, within (getQ rowA "longitude", getQ rowA "latitude") pl = true →
      getCol ((process_chunk polysA dfA).headI) "Port Name" =
        some (Val.str pl.port_name)) ∧
    ((∀ pl ∈ polysA, ¬ within (getQ rowA "longitude", getQ rowA "latitude") pl = true) →
      getCol ((process_chunk polysA dfA).headI) "Port Name" =
        some (Val.str "No")) :=
  C5_parked_iff_within polysA dfA (fun pt => List.length_filter_le _ polysA) 0
    rowA ((process_chunk polysA dfA).headI) rfl
    (by with_unfolding_all decide)

/-- C6: running the containment stage with batch size 1 and with batch
size equal to the dataset size gives identical results on a nonempty
dataset; both equal the single in-order pass over all records, so records
appear in original input order. -/
theorem C6_batch_invariance (df : List Row) (polys : List Polygon)
    (hne : df ≠ []) :
    process_with_polygons df polys 1 = process_with_polygons df polys df.length ∧
    process_with_polygons df polys 1 = some (process_chunk polys df) := by
  have h1 := process_with_polygons_eq df polys 1 one_pos hne
  have h2 := process_with_polygons_eq df polys df.length
    (List.length_pos.mpr hne) hne
  exact ⟨h1.trans h2.symm, h1⟩

theorem C6_batch_invariance_witness :
    process_with_polygons dfA polysA 1 = process_with_polygons dfA polysA dfA.length ∧
    process_with_polygons dfA polysA 1 = some (process_chunk polysA dfA) :=
  C6_batch_invariance dfA polysA (by decide)

/-- C8: the cleaning stage applies, in exactly this order, null-removal,
coordinate-range validation, speed-range validation, then exact-duplicate
removal, and its result contains no two identical rows.  The bodies of the
three filters are modelled from the spec (their module is not part of this
source tree); the order and the duplicate removal are the source's. -/
theorem C8_cleaning_order_nodup (lo hi : ℚ) (raw : List Row) :
    load_and_clean_data lo hi raw =
      dropDuplicates (remove_invalid_speed lo hi
        (remove_invalid_lat_and_lon (remove_NA raw))) ∧
    (load_and_clean_data lo hi raw).Nodup :=
  ⟨rfl, dropDuplicates_nodup _ _ le_rfl⟩

/-- C9: on a dataset that cleans down to zero records the containment
stage produces no output at all — the chunk loop runs zero times and
`pd.concat([])` raises, modelled as `none` — so the pipeline cannot
complete on empty cleaned input. -/
theorem C9_empty_input_errors (polys : List Polygon) (csize : ℕ) :
    process_with_polygons [] polys csize = none :=
  process_with_polygons_nil polys csize

/-- C2 counterexample: on a concrete run, the first output row carries a
`port_name` column — the right-hand column of the containment join, which
the source drops only `geometry` and `index_right` from — and `port_name`
is neither an original cleaned column nor one of the ten columns the claim
allows, so the output columns are not exactly the claimed set. -/
theorem C2_counterexample_port_name_column :
    (process_with_polygons (create_proximity_columns dfA portsA) polysA
      10000).isSome = true ∧
    "port_name" ∈ cols (((process_with_polygons (create_proximity_columns dfA portsA)
      polysA 10000).getD []).headI) ∧
    "port_name" ∉ cols rowA ++ ["Distance to Nearest Port", "Proximity Port Name",
      "Port Latitude", "Port Longitude", "Less than 1 km from port",
      "Less than 3 km from port", "Less than 5 km from port",
      "Less than 10 km from port", "Parked in Port", "Port Name"] := by
  with_unfolding_all decide

/-- C2 (amended): for a nonempty cleaned dataset, a nonempty port table, a
positive batch size and reference polygons matching each record at most
once, the serialized output has exactly one row per cleaned record, and
its columns are exactly the original cleaned columns plus
{Distance to Nearest Port, Proximity Port Name, Port Latitude,
Port Longitude, the four Less-than flags} plus the joined right-hand
column `port_name` plus {Parked in Port, Port Name}, in that order
(assuming none of these thirteen names already occurs in the input). -/
theorem C2_output_rows_and_columns (df : List Row) (ports : List PortRef)
    (polys : List Polygon) (csize : ℕ)
    (hp : ports ≠ []) (hc : 0 < csize) (hne : df ≠ [])
    (hfresh : ∀ r ∈ df, ∀ c ∈ proximityCols ++ joinCols, c ∉ cols r)
    (hm : ∀ r ∈ df,
      (polyMatches (getQ r "longitude", getQ r "latitude") polys).length ≤ 1) :
    ∃ outs, process_with_polygons (create_proximity_columns df ports) polys csize =
        some outs ∧
      outs.length = df.length ∧
      ∀ (i : ℕ) (r out : Row), df[i]? = some r → outs[i]? = some out →
        cols out = cols r ++ proximityCols ++
          ["port_name", "Parked in Port", "Port Name"] := by
  have hrow := pipeline_rowwise df ports polys hp hfresh hm
  have hne2 : create_proximity_columns df ports ≠ [] := by
    intro h0
    exact hne (List.map_eq_nil_iff.mp h0)
  refine ⟨process_chunk polys (create_proximity_columns df ports),
    process_with_polygons_eq _ _ _ hc hne2, hrow.length_eq.symm, ?_⟩
  intro i r out hr hout
  obtain ⟨ext8, ext3, _, hc8, hout2, hc3⟩ := forall₂_getElem? hrow i r out hr hout
  rw [hout2, cols_append, cols_append, hc8, hc3]

theorem C2_output_rows_and_columns_witness :
    ∃ outs, process_with_polygons (create_proximity_columns dfA portsA) polysA 10000 =
        some outs ∧
      outs.length = dfA.length ∧
      ∀ (i : ℕ) (r out : Row), dfA[i]? = some r → outs[i]? = some out →
        cols out = cols r ++ proximityCols ++
          ["port_name", "Parked in Port", "Port Name"] :=
  C2_output_rows_and_columns dfA portsA polysA 10000 (by decide) (by decide)
    (by decide) (by decide) (by with_unfolding_all decide)

/-- C10: the nearest-port annotator extends each of the caller's rows in
place — the returned row is the input row with the new columns appended at
the end, every original entry kept verbatim — and across both annotation
stages the values of all original cleaned columns are unchanged. -/
theorem C10_inplace_extension (df : List Row) (ports : List PortRef)
    (polys : List Polygon) (hp : ports ≠ [])
    (hfresh : ∀ r ∈ df, ∀ c ∈ proximityCols ++ joinCols, c ∉ cols r)
    (hm : ∀ r ∈ df,
      (polyMatches (getQ r "longitude", getQ r "latitude") polys).length ≤ 1) :
    (∀ r ∈ df, ∃ ext, addProximity (build false ports) r = r ++ ext ∧
      ∀ c v, getCol r c = some v →
        getCol (addProximity (build false ports) r) c = some v) ∧
    (∀ (i : ℕ) (r out : Row), df[i]? = some r →
      (process_chunk polys (create_proximity_columns df ports))[i]? = some out →
      ∃ ext, out = r ++ ext ∧
        ∀ c v, getCol r c = some v → getCol out c = some v) := by
  constructor
  · intro r hr
    obtain ⟨d, b, hq, _, _, _⟩ :=
      kdQuery_spec (getQ r "latitude", getQ r "longitude") false ports hp
    obtain ⟨ext8, he8, _⟩ := addProximity_shape _ r (d, b) hq
      (fun c hc => hfresh r hr c (List.mem_append_left _ hc))
    refine ⟨ext8, he8, ?_⟩
    intro c v hv
    rw [he8]
    exact getCol_append_pres r ext8 c v hv
  · intro i r out hr hout
    have hrow := pipeline_rowwise df ports polys hp hfresh hm
    obtain ⟨ext8, ext3, _, _, hout2, _⟩ := forall₂_getElem? hrow i r out hr hout
    refine ⟨ext8 ++ ext3, by rw [hout2, List.append_assoc], ?_⟩
    intro c v hv
    rw [hout2, List.append_assoc]
    exact getCol_append_pres r (ext8 ++ ext3) c v hv

theorem C10_inplace_extension_witness :
    (∀ r ∈ dfA, ∃ ext, addProximity (build false portsA) r = r ++ ext ∧
      ∀ c v, getCol r c = some v →
        getCol (addProximity (build false portsA) r) c = some v) ∧
    (∀ (i : ℕ) (r out : Row), dfA[i]? = some r →
      (process_chunk polysA (create_proximity_columns dfA portsA))[i]? = some out →
      ∃ ext, out = r ++ ext ∧
        ∀ c v, getCol r c = some v → getCol out c = some v) :=
  C10_inplace_extension dfA portsA polysA (by decide) (by decide)
    (by with_unfolding_all decide)

end AIS
